import Mathlib

/-!
Verification of the alumnic provisioning engine (ic-ufrj/alumnic).

This file shallowly embeds the Rust sources under `src/` into Lean:

* `src/utils/validacao_entradas.rs` — the field validators (`processar_dre`,
  `processar_data`, `processar_hora`, `processar_codigo`, `processar_nome`,
  `processar_email`, `processar_telefone`, `validar_senha`);
* `src/utils/nome.rs` — the name canonicalizer (`Nome`, `Nome::from_str`,
  `Nome::usernames`);
* `src/utils/hashes.rs` — the salted-hash pair (`hash_ssha_with_salt`,
  `compare_ssha`), with SHA1 kept abstract and base64 implemented;
* `src/ldap/cadastrar.rs` — the counter allocation (`samba_ids`) over an
  abstract directory, and the password-aging attribute derivation;
* `src/cadastro_aluno.rs` — the registration orchestrator
  (`DadosParaCadastro::cadastrar` and `cadastrar_sem_verificar_documento`)
  with the two external calls given as oracle outcomes.

Strings are embedded as lists of Unicode scalar values (`List Nat`); the
validators of `validacao_entradas.rs` operate on such lists, mirroring the
`regex` crate patterns character by character (including the crate's ordered
backtracking on `?` quantifiers).  The name canonicalizer additionally needs
the Unicode pipeline of `nome.rs` (cedilla replacement, NFD decomposition,
ASCII filtering); its alphabet is modelled by the inductive `CharU` below.
-/

/- ## Basic character and digit helpers -/

/-- Unicode scalar values of a Lean string literal, used to write concrete
inputs in theorem statements. -/
def strOf (s : String) : List Nat :=
  s.data.map Char.toNat

/-- Whitespace, as matched by the `regex` crate's `\s` on the inputs in
question (space, tab, line feed, vertical tab, form feed, carriage return). -/
def isWs (c : Nat) : Bool :=
  c == 32 || c == 9 || c == 10 || c == 11 || c == 12 || c == 13

/-- ASCII decimal digit, as matched by `\d` on ASCII input. -/
def isDigit (c : Nat) : Bool :=
  48 ≤ c && c ≤ 57

/-- Character class `[0-9A-F]` of the signature-code pattern. -/
def isHexM (c : Nat) : Bool :=
  (48 ≤ c && c ≤ 57) || (65 ≤ c && c ≤ 70)

/-- Numeric value of a list of ASCII digits, as `str::parse` computes it
(most significant digit first). -/
def digitosParaNat (ds : List Nat) : Nat :=
  ds.foldl (fun acc d => acc * 10 + (d - 48)) 0

/-- Fuel-driven decimal printer; the fuel bounds the number of digits. -/
def natParaDigitosAux : Nat → Nat → List Nat
  | 0, _ => []
  | fuel + 1, n =>
    if n < 10 then [48 + n]
    else natParaDigitosAux fuel (n / 10) ++ [48 + n % 10]

/-- Decimal digit characters of `n`, most significant first: the output of
Rust's `{}` formatting of an unsigned integer. -/
def natParaDigitos (n : Nat) : List Nat :=
  natParaDigitosAux (n + 1) n

/-- Rust's `{:02}` formatting of `n`: zero-padded to (at least) two digits. -/
def pad2 (n : Nat) : List Nat :=
  if n < 10 then [48, 48 + n] else natParaDigitos n

/-- Take exactly `n` characters satisfying `\d`; fail otherwise.  Mirrors an
exact `\d{n}` regex atom. -/
def tomarDigitosExatos : Nat → List Nat → Option (List Nat × List Nat)
  | 0, s => some ([], s)
  | n + 1, c :: s =>
    if isDigit c then
      (tomarDigitosExatos n s).map (fun p => (c :: p.1, p.2))
    else none
  | _ + 1, [] => none

/-- Take exactly `n` characters of class `[0-9A-F]`; fail otherwise. -/
def tomarHexExatos : Nat → List Nat → Option (List Nat × List Nat)
  | 0, s => some ([], s)
  | n + 1, c :: s =>
    if isHexM c then
      (tomarHexExatos n s).map (fun p => (c :: p.1, p.2))
    else none
  | _ + 1, [] => none

/- ## Field validators (src/utils/validacao_entradas.rs)

Each validator mirrors one `processar_*` function.  The regexes are unrolled
into direct character-level parsing with the same acceptance language and the
same captures. -/

/-- `processar_dre`: the pattern `^\s*(\d{9})\s*$`, returning the nine
digits. -/
def processar_dre (dre : List Nat) : Option (List Nat) :=
  let s1 := dre.dropWhile isWs
  let ds := s1.takeWhile isDigit
  let resto := s1.dropWhile isDigit
  if ds.length == 9 && resto.all isWs then some ds else none

/-- The output formatting of `processar_data`: day and month through `{:02}`,
and the year, bumped by 2000 when below 1000, through `{}`. -/
def formatar_data (d m a : Nat) : List Nat :=
  let a2 := if a < 1000 then 2000 + a else a
  pad2 d ++ [47] ++ pad2 m ++ [47] ++ natParaDigitos a2

/-- First pattern of `processar_data`:
`^\s*(\d{1,2})\s*/\s*(\d{1,2})\s*/\s*(\d{1,4})\s*$`. -/
def data_re1 (s : List Nat) : Option (List Nat) :=
  let s1 := s.dropWhile isWs
  let d := s1.takeWhile isDigit
  if 1 ≤ d.length ∧ d.length ≤ 2 then
    match (s1.dropWhile isDigit).dropWhile isWs with
    | 47 :: s3 =>
      let s4 := s3.dropWhile isWs
      let m := s4.takeWhile isDigit
      if 1 ≤ m.length ∧ m.length ≤ 2 then
        match (s4.dropWhile isDigit).dropWhile isWs with
        | 47 :: s6 =>
          let s7 := s6.dropWhile isWs
          let a := s7.takeWhile isDigit
          let s8 := s7.dropWhile isDigit
          if 1 ≤ a.length ∧ a.length ≤ 4 ∧ s8.all isWs then
            some (formatar_data (digitosParaNat d) (digitosParaNat m)
              (digitosParaNat a))
          else none
        | _ => none
      else none
    | _ => none
  else none

/-- Second pattern of `processar_data`: `^\s*(\d{2})\s*(\d{2})\s*(\d{4})\s*$`. -/
def data_re2 (s : List Nat) : Option (List Nat) := do
  let (d, s2) ← tomarDigitosExatos 2 (s.dropWhile isWs)
  let (m, s3) ← tomarDigitosExatos 2 (s2.dropWhile isWs)
  let (a, s4) ← tomarDigitosExatos 4 (s3.dropWhile isWs)
  if s4.all isWs then
    some (formatar_data (digitosParaNat d) (digitosParaNat m)
      (digitosParaNat a))
  else none

/-- `processar_data`: the first pattern, falling back to the second. -/
def processar_data (data : List Nat) : Option (List Nat) :=
  match data_re1 data with
  | some r => some r
  | none => data_re2 data

/-- `processar_hora`: the pattern `^\s*(\d{1,2})\s*\:\s*(\d{1,2})\s*$`,
formatted `{:02}:{:02}`. -/
def processar_hora (hora : List Nat) : Option (List Nat) :=
  let s1 := hora.dropWhile isWs
  let h := s1.takeWhile isDigit
  if 1 ≤ h.length ∧ h.length ≤ 2 then
    match (s1.dropWhile isDigit).dropWhile isWs with
    | 58 :: s3 =>
      let s4 := s3.dropWhile isWs
      let m := s4.takeWhile isDigit
      let s5 := s4.dropWhile isDigit
      if 1 ≤ m.length ∧ m.length ≤ 2 ∧ s5.all isWs then
        some (pad2 (digitosParaNat h) ++ [58] ++ pad2 (digitosParaNat m))
      else none
    | _ => none
  else none

/-- One `\s*\.\s*([0-9A-F]{4})` continuation group of the signature-code
pattern. -/
def grupoSeguinte (s : List Nat) : Option (List Nat × List Nat) :=
  match s.dropWhile isWs with
  | 46 :: t => tomarHexExatos 4 (t.dropWhile isWs)
  | _ => none

/-- `processar_codigo`: eight dot-separated groups of four uppercase
hexadecimal digits, whitespace tolerated around the dots and ends; the
capture groups are re-joined with single dots. -/
def processar_codigo (codigo : List Nat) : Option (List Nat) := do
  let (g1, r1) ← tomarHexExatos 4 (codigo.dropWhile isWs)
  let (g2, r2) ← grupoSeguinte r1
  let (g3, r3) ← grupoSeguinte r2
  let (g4, r4) ← grupoSeguinte r3
  let (g5, r5) ← grupoSeguinte r4
  let (g6, r6) ← grupoSeguinte r5
  let (g7, r7) ← grupoSeguinte r6
  let (g8, r8) ← grupoSeguinte r7
  if r8.all isWs then
    some (g1 ++ 46 :: g2 ++ 46 :: g3 ++ 46 :: g4 ++ 46 :: g5 ++ 46 :: g6 ++
      46 :: g7 ++ 46 :: g8)
  else none

example : processar_dre (strOf "123456789") = some (strOf "123456789") := by
  decide

example : processar_dre (strOf "345678912 ") = some (strOf "345678912") := by
  decide

example : processar_dre (strOf " 34s333333") = none := by decide

example : processar_dre (strOf "12345678 ") = none := by decide

example : processar_data (strOf "01/01/2025") = some (strOf "01/01/2025") := by
  decide

example : processar_data (strOf "1 / 1 / 25") = some (strOf "01/01/2025") := by
  decide

example : processar_data (strOf "01012025") = some (strOf "01/01/2025") := by
  decide

example : processar_data (strOf "25 12 2002") = some (strOf "25/12/2002") := by
  decide

example : processar_data (strOf "25 12 02") = none := by decide

example : processar_data (strOf "1 1 2002") = none := by decide

example : processar_data (strOf "25/12/02") = some (strOf "25/12/2002") := by
  decide

example : processar_hora (strOf "16 :2") = some (strOf "16:02") := by decide

example : processar_hora (strOf "9:5") = some (strOf "09:05") := by decide

example : processar_hora (strOf "24:00") = some (strOf "24:00") := by decide

example : processar_hora (strOf "12:34:56") = none := by decide

example : processar_hora (strOf "::") = none := by decide

example :
    processar_codigo (strOf "A3B1.7E5D.F002.19AC.4F6B.9D3E.82C1.BAAF") =
      some (strOf "A3B1.7E5D.F002.19AC.4F6B.9D3E.82C1.BAAF") := by decide

example :
    processar_codigo (strOf "a3b1.7e5d.f002.19ac.4f6b.9d3e.82c1.baaf") =
      none := by decide

example :
    processar_codigo (strOf " A3B1 . 7E5D  .F002.19AC.4F6B.9D3E.82C1.BAAF ") =
      some (strOf "A3B1.7E5D.F002.19AC.4F6B.9D3E.82C1.BAAF") := by decide

example :
    processar_codigo (strOf "A3B1.7E5D.F02.19AC.4F6B.9D3E.82C1.BAAF") =
      none := by decide

/- The phone pattern
`^\s*(?:\+55)?\s*\(?0?(\d\d)\)?\s*(9?\d{4})\s*\-?\s*(\d{4})\s*$` has five
optional atoms; the `regex` crate tries each greedy alternative (atom
present) first and backtracks to the empty alternative on failure of the
whole remainder.  The functions below unroll the pattern with exactly that
ordered choice (`<|>`). -/

/-- Tail `\s*\-?\s*(\d{4})\s*$` of the phone pattern; on success produces the
canonical output `+55` ++ area code ++ subscriber digits. -/
def telFim (ddd c2 : List Nat) (s : List Nat) : Option (List Nat) :=
  let tenta : List Nat → Option (List Nat) := fun t =>
    match tomarDigitosExatos 4 (t.dropWhile isWs) with
    | some (c3, r) =>
      if r.all isWs then some (strOf "+55" ++ ddd ++ c2 ++ c3) else none
    | none => none
  match s.dropWhile isWs with
  | 45 :: t => tenta t <|> tenta (45 :: t)
  | t => tenta t

/-- Subscriber capture `(9?\d{4})` of the phone pattern. -/
def telAssinante (ddd : List Nat) (s : List Nat) : Option (List Nat) :=
  (match s with
    | 57 :: t =>
      match tomarDigitosExatos 4 t with
      | some (c, r) => telFim ddd (57 :: c) r
      | none => none
    | _ => none) <|>
  (match tomarDigitosExatos 4 s with
    | some (c, r) => telFim ddd c r
    | none => none)

/-- Area-code capture `(\d\d)\)?\s*` of the phone pattern, entered after the
optional `0`. -/
def telAposZero (t : List Nat) : Option (List Nat) :=
  match tomarDigitosExatos 2 t with
  | some (ddd, r) =>
    (match r with
      | 41 :: u => telAssinante ddd (u.dropWhile isWs)
      | _ => none) <|>
    telAssinante ddd (r.dropWhile isWs)
  | none => none

/-- Segment `\s*\(?0?` of the phone pattern, entered after the optional
`+55`. -/
def telAposMais (s : List Nat) : Option (List Nat) :=
  let s1 := s.dropWhile isWs
  let aposParen : List Nat → Option (List Nat) := fun t =>
    (match t with
      | 48 :: u => telAposZero u
      | _ => none) <|>
    telAposZero t
  match s1 with
  | 40 :: t => aposParen t <|> aposParen (40 :: t)
  | t => aposParen t

/-- `processar_telefone`: the full phone pattern with captures re-assembled
as `+55{ddd}{subscriber}`. -/
def processar_telefone (telefone : List Nat) : Option (List Nat) :=
  match telefone.dropWhile isWs with
  | 43 :: 53 :: 53 :: t => telAposMais t <|> telAposMais (43 :: 53 :: 53 :: t)
  | t => telAposMais t

/-- `validar_senha`: length between 8 and 25 scalar values, at least one
ASCII lowercase letter, one ASCII uppercase letter and one ASCII digit. -/
def validar_senha (senha : List Nat) : Bool :=
  8 ≤ senha.length && senha.length ≤ 25 &&
    senha.any (fun c => 97 ≤ c && c ≤ 122) &&
    senha.any (fun c => 65 ≤ c && c ≤ 90) &&
    senha.any isDigit

example :
    processar_telefone (strOf "+55 (21) 98765-4321") =
      some (strOf "+5521987654321") := by decide

example :
    processar_telefone (strOf "(21) 98765-4321") =
      some (strOf "+5521987654321") := by decide

example :
    processar_telefone (strOf "021 98765-4321") =
      some (strOf "+5521987654321") := by decide

example :
    processar_telefone (strOf "21 987654321") =
      some (strOf "+5521987654321") := by decide

example :
    processar_telefone (strOf " 21  98765 - 4321 ") =
      some (strOf "+5521987654321") := by decide

example :
    processar_telefone (strOf "21 2345-6789") =
      some (strOf "+552123456789") := by decide

example :
    processar_telefone (strOf "(085) 98765-4321") =
      some (strOf "+5585987654321") := by decide

example : processar_telefone (strOf "98765-4321") = none := by decide

example : processar_telefone (strOf "telefone: (21) 98765-43!1") = none := by
  decide

example : processar_telefone (strOf "12345") = none := by decide

example : processar_telefone (strOf "+55 (21) 98765-432100000") = none := by
  decide

example :
    processar_telefone (strOf "21987654321") =
      some (strOf "+5521987654321") := by decide

example : validar_senha (strOf "Senha123") = true := by decide

example : validar_senha (strOf "senha123") = false := by decide

/- ## Name canonicalizer (src/utils/nome.rs)

`Nome::from_str` runs a Unicode pipeline: replace `ç`/`Ç` by `C`, decompose
(NFD), keep only ASCII characters, ASCII-lowercase, and reject anything that
is not a lowercase letter or a space.  The alphabet is modelled by `CharU`:

* `ascii c` — an ASCII scalar value `c < 128`;
* `latin b a` — an accented Latin letter whose NFD is the ASCII letter `b`
  followed by combining marks (`a` is an opaque tag distinguishing accents);
  simple one-to-one case mapping that preserves the accent;
* `cedilha m` — `Ç` (`m = true`) or `ç` (`m = false`);
* `outro t` — any other non-ASCII character: no ASCII character in its NFD,
  case-invariant, and not whitespace (CJK letters, symbols, emoji, ...).

Characters with multi-character case mappings or non-ASCII whitespace are
outside the modelled alphabet. -/

inductive CharU where
  | ascii (c : Nat)
  | latin (base acento : Nat)
  | cedilha (maiuscula : Bool)
  | outro (tag : Nat)
deriving DecidableEq, Repr

/-- ASCII characters of a Lean string literal as `CharU` values. -/
def asciiStr (s : String) : List CharU :=
  s.data.map (fun c => CharU.ascii c.toNat)

/-- `u8::to_ascii_lowercase` on a scalar value. -/
def toLowerA (c : Nat) : Nat :=
  if 65 ≤ c ∧ c ≤ 90 then c + 32 else c

/-- ASCII uppercasing of a scalar value. -/
def toUpperA (c : Nat) : Nat :=
  if 97 ≤ c ∧ c ≤ 122 then c - 32 else c

/-- Unicode lowercasing (`str::to_lowercase`) on the modelled alphabet. -/
def CharU.toLower : CharU → CharU
  | .ascii c => .ascii (toLowerA c)
  | .latin b a => .latin (toLowerA b) a
  | .cedilha _ => .cedilha false
  | .outro t => .outro t

/-- Unicode uppercasing (`char::to_uppercase`) on the modelled alphabet. -/
def CharU.toUpper : CharU → CharU
  | .ascii c => .ascii (toUpperA c)
  | .latin b a => .latin (toUpperA b) a
  | .cedilha _ => .cedilha true
  | .outro t => .outro t

/-- The `replace(['ç', 'Ç'], "C")` step: both cedilla variants become the
ASCII letter `C`. -/
def CharU.substCedilha : CharU → CharU
  | .cedilha _ => .ascii 67
  | c => c

/-- The `.nfd().filter(char::is_ascii)` steps: the ASCII characters remaining
from the canonical decomposition of one character. -/
def CharU.nfdAscii : CharU → List Nat
  | .ascii c => [c]
  | .latin b _ => [b]
  | .cedilha m => [if m then 67 else 99]
  | .outro _ => []

/-- A scalar that survives the final check of `Nome::from_str`: an ASCII
lowercase letter or a space. -/
def ehMinusculaOuEspaco (c : Nat) : Bool :=
  (97 ≤ c && c ≤ 122) || c == 32

/-- The whitespace test of `split_whitespace` on the modelled alphabet
(`outro` characters are non-whitespace by definition of the alphabet). -/
def ehEspacoU : CharU → Bool
  | .ascii c => isWs c
  | _ => false

/-- Sanitizing pipeline of `Nome::from_str`: cedilla replacement, NFD, ASCII
filter, ASCII lowercasing; `none` when any resulting character is not a
lowercase letter or space (the `CaracterEstranho` case). -/
def sanitizar (s : List CharU) : Option (List Nat) :=
  let cs := ((s.map CharU.substCedilha).flatMap CharU.nfdAscii).map toLowerA
  if cs.all ehMinusculaOuEspaco then some cs else none

/-- The sanitized scalars contributed by a single character: cedilla
replacement, decomposition-and-ASCII-filter, ASCII lowercasing (the per
character view of the pipeline of `sanitizar`). -/
def sanChar (ch : CharU) : List Nat :=
  (CharU.nfdAscii (CharU.substCedilha ch)).map toLowerA

/-- Well-formedness of a character with respect to the intent of the
alphabet: an `ascii` tag carries an ASCII scalar and a `latin` tag carries an
ASCII letter base (the constructors morally require this; the predicate makes
it available to proofs). -/
def CharU.bemFormado : CharU → Bool
  | .ascii c => decide (c < 128)
  | .latin b _ => (65 ≤ b && b ≤ 90) || (97 ≤ b && b ≤ 122)
  | .cedilha _ => true
  | .outro _ => true

/-- Accumulator pass of `palavrasG`; `acc` holds the reversed current run of
non-whitespace characters. -/
def palavrasAux {α : Type} (ws : α → Bool) : List α → List α → List (List α)
  | [], [] => []
  | [], acc => [acc.reverse]
  | c :: r, acc =>
    if ws c then
      match acc with
      | [] => palavrasAux ws r []
      | _ => acc.reverse :: palavrasAux ws r []
    else palavrasAux ws r (c :: acc)

/-- `split_whitespace` with respect to a whitespace test `ws`: maximal runs
of non-`ws` characters, in order, with no empty words. -/
def palavrasG {α : Type} (ws : α → Bool) (s : List α) : List (List α) :=
  palavrasAux ws s []

/-- Equality on `Except` values is decidable componentwise (the Rust
orchestrator compares two `Result` values with `!=`). -/
instance instDecEqExcept {ε α : Type} [DecidableEq ε] [DecidableEq α] :
    DecidableEq (Except ε α) := fun x y =>
  match x, y with
  | .error a, .error b =>
    if h : a = b then .isTrue (congrArg Except.error h)
    else .isFalse (fun hh => h (Except.error.inj hh))
  | .ok a, .ok b =>
    if h : a = b then .isTrue (congrArg Except.ok h)
    else .isFalse (fun hh => h (Except.ok.inj hh))
  | .error _, .ok _ => .isFalse (fun hh => Except.noConfusion hh)
  | .ok _, .error _ => .isFalse (fun hh => Except.noConfusion hh)

/-- The two error cases of `Nome::from_str` (`NomeErro`). -/
inductive NomeErro where
  | caracterEstranho
  | nomeCurto
deriving DecidableEq, Repr

/-- The grammatical particles dropped by `Nome::from_str` (and kept lowercase
by `processar_nome`). -/
def particulas : List (List Nat) :=
  [strOf "de", strOf "do", strOf "da", strOf "dos", strOf "das"]

/-- The canonical name: the token sequence held by the Rust `Nome(Vec<String>)`
(tokens are ASCII lowercase letters only). -/
structure Nome where
  palavras : List (List Nat)
deriving DecidableEq, Repr

/-- `Nome::from_str`: sanitize, split on whitespace, drop empties and
particles, truncate to 10 tokens, require at least 2 tokens. -/
def Nome.fromStr (s : List CharU) : Except NomeErro Nome :=
  match sanitizar s with
  | none => .error .caracterEstranho
  | some cs =>
    let v := (((palavrasG isWs cs).filter (fun x => !x.isEmpty)).filter
      (fun x => !particulas.contains x)).take 10
    if v.length > 1 then .ok ⟨v⟩ else .error .nomeCurto

/-- The binary-counting mask enumeration of `Nome::usernames`:
`repeat_n([false, true], k).multi_cartesian_product()`, whose first factor
varies slowest (`false` before `true` at every position). -/
def produtoCartesiano : Nat → List (List Bool)
  | 0 => [[]]
  | n + 1 =>
    [false, true].flatMap (fun b => (produtoCartesiano n).map (fun m => b :: m))

/-- `expansao_sobrenomica`: the given name followed by, per surname token,
either the full token (`true`) or its first character (`false`). -/
def expansaoSobrenomica (mask : List Bool) (names : List (List Nat)) :
    List Nat :=
  names.headD [] ++
    (List.zip mask names.tail).flatMap
      (fun p => if p.1 then p.2 else p.2.take 1)

/-- `Nome::usernames`: every mask expansion, in mask-enumeration order,
filtered to byte length < 20 (tokens are ASCII, so byte length is list
length). -/
def Nome.usernames (n : Nome) : List (List Nat) :=
  ((produtoCartesiano (n.palavras.length - 1)).map
    (fun m => expansaoSobrenomica m n.palavras)).filter
    (fun u => u.length < 20)

/-- The particles as words over the modelled alphabet (they are plain ASCII
words; an accented variant such as "dé" is a different `CharU` word and is
not a particle, exactly as Rust's `&str` comparison behaves). -/
def particulasU : List (List CharU) :=
  [asciiStr "de", asciiStr "da", asciiStr "do", asciiStr "das", asciiStr "dos"]

/-- `processar_nome`'s capitalization of one word of the lowercased input:
particles stay lowercase, any other word gets its first character
uppercased. -/
def capitalizarPalavra (x : List CharU) : List CharU :=
  if x ∈ particulasU then x
  else
    match x with
    | [] => []
    | c :: r => c.toUpper :: r

/-- The `join(" ")` of `processar_nome`: words separated by single spaces. -/
def juntarPalavras : List (List CharU) → List CharU
  | [] => []
  | [w] => w
  | w :: r => w ++ CharU.ascii 32 :: juntarPalavras r

/-- `processar_nome`: validate through `Nome::from_str`, then re-emit the
input lowercased, split on whitespace, capitalized per word and joined with
single spaces. -/
def processar_nome (nome : List CharU) : Option (List CharU) :=
  match Nome.fromStr nome with
  | .error _ => none
  | .ok _ =>
    some (juntarPalavras
      ((palavrasG ehEspacoU (nome.map CharU.toLower)).map capitalizarPalavra))

example :
    Nome.fromStr (asciiStr "Carlos 71") = .error .caracterEstranho := by
  decide

example :
    Nome.fromStr (asciiStr "Jos" ++ [.latin 101 1]) = .error .nomeCurto := by
  decide

example :
    Nome.fromStr (asciiStr "JOSE FELIPE ARAUJO") =
      Nome.fromStr (asciiStr "Jos" ++ [.latin 101 1] ++
        asciiStr " Felipe de Ara" ++ [.latin 117 1] ++ asciiStr "jo") := by
  decide

example :
    (Nome.fromStr (asciiStr "ARTHUR BACCI DE OLIVEIRA")).map Nome.usernames =
      .ok [strOf "arthurbo", strOf "arthurboliveira", strOf "arthurbaccio",
        strOf "arthurbaccioliveira"] := by decide

example :
    processar_nome (asciiStr "jos" ++ [.latin 101 1] ++
        asciiStr " da     silva") =
      some (asciiStr "Jos" ++ [.latin 101 1] ++ asciiStr " da Silva") := by
  decide

example : processar_nome (asciiStr "maria123 de souza") = none := by decide

example : processar_nome (asciiStr "de souza") = none := by decide

/- ## Email validator (src/utils/validacao_entradas.rs, external grammar) -/

/-- Split a string at its only `@` (scalar 64); fail when there is no `@` or
more than one. -/
def quebrarArroba : List Nat → Option (List Nat × List Nat)
  | [] => none
  | c :: resto =>
    if c = 64 then
      if 64 ∈ resto then none else some ([], resto)
    else (quebrarArroba resto).map (fun p => (c :: p.1, p.2))

/-- Modelled from the spec: the mailbox parser of the external email-address
library (the library code is not part of this repository).  Per the spec the
email is "parsed via a standard mailbox grammar"; the model accepts
`local@domain` with a single `@`, both parts nonempty and free of
whitespace, and returns the (local part, domain) pair.  Quoted local parts
and name-addr forms are outside the model. -/
def parseMailbox (s : List Nat) : Option (List Nat × List Nat) := do
  let (l, d) ← quebrarArroba s
  if l ≠ [] ∧ d ≠ [] ∧ l.all (fun c => !isWs c) ∧ d.all (fun c => !isWs c)
  then some (l, d) else none

/-- Trim whitespace from both ends (`str::trim`). -/
def aparar (s : List Nat) : List Nat :=
  ((s.dropWhile isWs).reverse.dropWhile isWs).reverse

/-- `processar_email`: trim, parse, rebuild with the domain lowercased,
re-parse, and print the parsed address. -/
def processar_email (email : List Nat) : Option (List Nat) := do
  let (l, d) ← parseMailbox (aparar email)
  let novo := l ++ 64 :: d.map toLowerA
  let (l2, d2) ← parseMailbox novo
  some (l2 ++ 64 :: d2)

example :
    processar_email (strOf "  JoSe@Exemplo.Com  ") =
      some (strOf "JoSe@exemplo.com") := by decide

example : processar_email (strOf "jose@") = none := by decide

example : processar_email (strOf "jose.email.com") = none := by decide

example : processar_email (strOf "jose@joao@email.com") = none := by decide

/- ## Salted hash (src/utils/hashes.rs)

SHA1 itself is kept abstract: the theorems quantify over any digest function
producing 20 bytes.  Base64 (the `BASE64_STANDARD` engine) is implemented on
byte lists. -/

/-- The standard base64 alphabet, as scalar values. -/
def b64Alfabeto : List Nat :=
  strOf "ABCDEFGHIJKLMNOPQRSTUVWXYZabcdefghijklmnopqrstuvwxyz0123456789+/"

/-- Character of a 6-bit group. -/
def b64Char (i : Nat) : Nat :=
  b64Alfabeto.getD i 0

/-- Position of a scalar in a list, if present. -/
def indiceDe (c : Nat) : List Nat → Option Nat
  | [] => none
  | x :: r => if x = c then some 0 else (indiceDe c r).map (· + 1)

/-- Inverse of the base64 alphabet. -/
def b64Indice (c : Nat) : Option Nat :=
  indiceDe c b64Alfabeto

/-- Standard base64 encoding with padding (`BASE64_STANDARD.encode`) of a
byte list. -/
def base64Encode : List Nat → List Nat
  | b1 :: b2 :: b3 :: resto =>
    b64Char (b1 / 4) :: b64Char (b1 % 4 * 16 + b2 / 16) ::
      b64Char (b2 % 16 * 4 + b3 / 64) :: b64Char (b3 % 64) ::
      base64Encode resto
  | [b1, b2] =>
    [b64Char (b1 / 4), b64Char (b1 % 4 * 16 + b2 / 16), b64Char (b2 % 16 * 4),
      61]
  | [b1] => [b64Char (b1 / 4), b64Char (b1 % 4 * 16), 61, 61]
  | [] => []

/-- Standard base64 decoding (`BASE64_STANDARD.decode`): groups of four
characters, `=`-padding only at the very end, `none` on any invalid
character or truncated group. -/
def base64Decode : List Nat → Option (List Nat)
  | [] => some []
  | c1 :: c2 :: c3 :: c4 :: resto => do
    let i1 ← b64Indice c1
    let i2 ← b64Indice c2
    if c3 = 61 then
      if c4 = 61 ∧ resto = [] then some [i1 * 4 + i2 / 16] else none
    else do
      let i3 ← b64Indice c3
      if c4 = 61 then
        if resto = [] then some [i1 * 4 + i2 / 16, i2 % 16 * 16 + i3 / 4]
        else none
      else do
        let i4 ← b64Indice c4
        let bs ← base64Decode resto
        some ((i1 * 4 + i2 / 16) :: (i2 % 16 * 16 + i3 / 4) ::
          (i3 % 4 * 64 + i4) :: bs)
  | _ => none

/-- The scalar values of the literal `"{SSHA}"` (written as codes: `\x7b S S
H A \x7d`). -/
def rotuloSSHA : List Nat :=
  [123, 83, 83, 72, 65, 125]

/-- `hash_ssha_with_salt`: the SSHA label followed by
`base64(SHA1(passwd ++ salt) ++ salt)`. -/
def hash_ssha_with_salt (sha1 : List Nat → List Nat)
    (passwd salt : List Nat) : List Nat :=
  rotuloSSHA ++ base64Encode (sha1 (passwd ++ salt) ++ salt)

/-- `str::strip_prefix`: remove a leading label, or fail. -/
def tirarRotulo : List Nat → List Nat → Option (List Nat)
  | [], s => some s
  | p :: pr, c :: s => if p = c then tirarRotulo pr s else none
  | _ :: _, [] => none

/-- `compare_ssha`.  The Rust function unwraps at three places (missing
label, invalid base64, and — via `split_at(20)` and
`<[u8; 4]>::try_from` — a decoded length other than 24); each panic is
modelled as `none`.  On well-formed input it returns whether re-hashing the
password with the stored salt reproduces the stored string exactly. -/
def compare_ssha (sha1 : List Nat → List Nat) (passwd hash : List Nat) :
    Option Bool :=
  match tirarRotulo rotuloSSHA hash with
  | none => none
  | some semRotulo =>
    match base64Decode semRotulo with
    | none => none
    | some hashUnbased =>
      if 20 ≤ hashUnbased.length then
        let salt := hashUnbased.drop 20
        if salt.length = 4 then
          some (decide (hash_ssha_with_salt sha1 passwd salt = hash))
        else none
      else none

example :
    base64Decode (base64Encode [1, 2, 3, 250, 251, 252]) =
      some [1, 2, 3, 250, 251, 252] := by decide

/- ## Counter allocation (src/ldap/cadastrar.rs, `samba_ids`)

The directory is abstracted by an observation function `obs`: `obs t` is the
pair of counter values stored on the `sambaDomain` entry at the time of the
function's `t`-th directory operation.  `samba_ids` performs one search
(operation 0) and then up to five modify operations (operations 1..5); a
modify — `Delete` of the old values plus `Add` of the incremented values —
succeeds exactly when the entry still holds the values being deleted.
Between two operations, concurrent registrations may change the counters
arbitrarily, which is why `obs` is an unconstrained function.  The failure
paths of the initial search (missing entry, missing attribute, non-numeric
value), all mapped to `ErroSamba` by the source, are not modelled. -/

/-- The error type `ErroLdap` of src/ldap/error.rs.  Protocol errors carried
by the ldap3 library are abstracted by a tag. -/
inductive ErroLdap where
  | erroLdap (tag : Nat)
  | falhaUid
  | usuarioDificil
  | erroDeNome (e : NomeErro)
  | erroSamba
deriving DecidableEq, Repr

/-- The `uidNumber` / `sambaNextRid` pair of the domain counter entry, as
64-bit signed values (`str::parse::<i64>`). -/
structure Contadores where
  uidNumber : Int
  sambaNextRid : Int
deriving DecidableEq, Repr

/-- The `for _ in 1..=5` loop of `samba_ids`: attempt the same modify — with
the originally read values `lido` and their increments `prox` — at each
operation index in `ks`, succeeding as soon as the entry still holds `lido`,
and `ErroSamba` once the list is exhausted. -/
def sambaIdsTentativas (obs : Nat → Contadores) (lido prox : Contadores) :
    List Nat → Except ErroLdap Contadores
  | [] => .error .erroSamba
  | k :: resto =>
    if obs k = lido then .ok prox else sambaIdsTentativas obs lido prox resto

/-- `samba_ids`: read the counters once (operation 0), increment both, and
try the delete-old/add-new modify up to five times (operations 1..5). -/
def samba_ids (obs : Nat → Contadores) : Except ErroLdap Contadores :=
  let lido := obs 0
  let prox : Contadores := ⟨lido.uidNumber + 1, lido.sambaNextRid + 1⟩
  sambaIdsTentativas obs lido prox [1, 2, 3, 4, 5]

/-- Modelled from the spec: the allocation loop as §4.4 words it —
"re-reading fresh values each retry".  Each of the five attempt cycles
re-reads the counters (operation `2*j`) and then tries the conditional
modify with those fresh values (operation `2*j + 1`).  This definition
exists only to be compared with `samba_ids` above. -/
def sambaIdsRelerCiclos (obs : Nat → Contadores) :
    List Nat → Except ErroLdap Contadores
  | [] => .error .erroSamba
  | j :: resto =>
    let lido := obs (2 * j)
    let prox : Contadores := ⟨lido.uidNumber + 1, lido.sambaNextRid + 1⟩
    if obs (2 * j + 1) = lido then .ok prox
    else sambaIdsRelerCiclos obs resto

/-- Modelled from the spec: five read-then-modify cycles. -/
def samba_ids_segundo_spec (obs : Nat → Contadores) :
    Except ErroLdap Contadores :=
  sambaIdsRelerCiclos obs [0, 1, 2, 3, 4]

/- ## Password-aging attributes (src/ldap/cadastrar.rs, `cadastrar_usuario`) -/

/-- The six time-derived attributes of the directory entry built by
`cadastrar_usuario`, as signed integers before `to_string`. -/
structure AtributosTempo where
  sambaKickoffTime : Int
  sambaPwdLastSet : Int
  sambaPwdMustChange : Int
  shadowLastChange : Int
  dataCriacao : Int
  dataRenovacao : Int
deriving DecidableEq, Repr

/-- The derivation of the time attributes from `samba_today`
(`Utc::now().timestamp()`, seconds): `samba_kickoff = samba_today +
3600*24*60*60`, `shadow_today = samba_today / (24*60*60)` (Rust `i64`
division truncates toward zero, which is `Int.tdiv`), `shadow_renovacao =
shadow_today + 3600`, placed on the entry as in the `ldap.add` call. -/
def atributosTempo (samba_today : Int) : AtributosTempo :=
  let samba_kickoff := samba_today + 3600 * 24 * 60 * 60
  let shadow_today := Int.tdiv samba_today (24 * 60 * 60)
  let shadow_renovacao := shadow_today + 3600
  { sambaKickoffTime := samba_kickoff
    sambaPwdLastSet := samba_today
    sambaPwdMustChange := samba_kickoff
    shadowLastChange := shadow_today
    dataCriacao := shadow_today
    dataRenovacao := shadow_renovacao }

/- ## Registration orchestrator (src/cadastro_aluno.rs)

`DadosParaCadastro::cadastrar` is sequential apart from the `tokio::join!`
of the two external consultations; the embedding takes the two settled
outcomes (and the outcome of the final `cadastrar_usuario` write) as oracle
parameters and reproduces the control flow exactly. -/

/-- `portal_ufrj::ConsultaErro` (network errors abstracted by a tag). -/
inductive ConsultaErro where
  | erroReqwest (tag : Nat)
  | semViewState
  | combinacaoInvalida
  | numeroEstranhoDeItens
deriving DecidableEq, Repr

/-- `portal_ufrj::Consulta`: the classified outcome of the document
verification. -/
inductive Consulta where
  | alunoDoCurso (nome : List CharU)
  | alunoOutroCurso (nome curso : List CharU)
  | desconhecido
deriving DecidableEq, Repr

/-- `ldap::consulta::Consulta`: the outcome of the directory probe. -/
inductive ConsultaLdap where
  | cadastroDisponivel (uid : List Nat)
  | cadastroRedundante (uid : List Nat)
deriving DecidableEq, Repr

/-- `ErroDeCadastro` of src/cadastro_aluno.rs. -/
inductive ErroDeCadastro where
  | dreInvalido (s : List Nat)
  | dataInvalida (s : List Nat)
  | horaInvalida (s : List Nat)
  | codigoInvalido (s : List Nat)
  | nomeInvalido (s : List CharU)
  | emailInvalido (s : List Nat)
  | telefoneInvalido (s : List Nat)
  | senhaInvalida
  | erroNaConsulta (e : ConsultaErro)
  | alunoOutroCurso (curso : List CharU)
  | documentoInvalido
  | erroNoCadastro (e : ErroLdap)
  | cadastroRedundante (uid : List Nat)
  | nomesDiferentes (informado siga : List CharU)
deriving DecidableEq, Repr

/-- The raw registration payload `DadosParaCadastro`.  The name fields use
the modelled Unicode alphabet; the remaining fields are scalar lists. -/
structure DadosParaCadastro where
  dre : List Nat
  data : List Nat
  hora : List Nat
  codigo : List Nat
  nome : List CharU
  email : List Nat
  telefone : List Nat
  senha : List Nat
deriving Repr

/-- `DadosParaCadastro::cadastrar_sem_verificar_documento`: validate dre,
name, email, phone and password in order (each failure carrying the raw
field), then run `cadastrar_usuario`, whose outcome is the oracle
`cadastrarUsuario`. -/
def cadastrar_sem_verificar_documento (dados : DadosParaCadastro)
    (_uid : List Nat) (cadastrarUsuario : Except ErroLdap Unit) :
    Except ErroDeCadastro Unit :=
  match processar_dre dados.dre with
  | none => .error (.dreInvalido dados.dre)
  | some _ =>
    match processar_nome dados.nome with
    | none => .error (.nomeInvalido dados.nome)
    | some _ =>
      match processar_email dados.email with
      | none => .error (.emailInvalido dados.email)
      | some _ =>
        match processar_telefone dados.telefone with
        | none => .error (.telefoneInvalido dados.telefone)
        | some _ =>
          if validar_senha dados.senha then
            match cadastrarUsuario with
            | .error e => .error (.erroNoCadastro e)
            | .ok _ => .ok ()
          else .error .senhaInvalida

/-- `DadosParaCadastro::cadastrar`: validate date, time and signature code;
consult SIGA and the directory concurrently (their settled outcomes are the
oracles `consultaSiga` and `consultaLdap`); consume the directory outcome,
then the SIGA outcome; compare the two names as parse results; and finally
run `cadastrar_sem_verificar_documento` on the updated payload, returning
the assigned username. -/
def cadastrar (dados : DadosParaCadastro)
    (consultaSiga : Except ConsultaErro Consulta)
    (consultaLdap : Except ErroLdap ConsultaLdap)
    (cadastrarUsuario : Except ErroLdap Unit) :
    Except ErroDeCadastro (List Nat) :=
  match processar_data dados.data with
  | none => .error (.dataInvalida dados.data)
  | some data2 =>
  match processar_hora dados.hora with
  | none => .error (.horaInvalida dados.hora)
  | some hora2 =>
  match processar_codigo dados.codigo with
  | none => .error (.codigoInvalido dados.codigo)
  | some codigo2 =>
  match consultaLdap with
  | .error e => .error (.erroNoCadastro e)
  | .ok (.cadastroRedundante uid) => .error (.cadastroRedundante uid)
  | .ok (.cadastroDisponivel uidLdap) =>
  match consultaSiga with
  | .error e => .error (.erroNaConsulta e)
  | .ok (.alunoOutroCurso _ curso) => .error (.alunoOutroCurso curso)
  | .ok .desconhecido => .error .documentoInvalido
  | .ok (.alunoDoCurso nomeSiga) =>
  if Nome.fromStr dados.nome ≠ Nome.fromStr nomeSiga then
    .error (.nomesDiferentes dados.nome nomeSiga)
  else
    match cadastrar_sem_verificar_documento
        { dados with data := data2, hora := hora2, codigo := codigo2 }
        uidLdap cadastrarUsuario with
    | .error e => .error e
    | .ok _ => .ok uidLdap

/- ## Theorems -/

/- ### C9: password-aging attribute derivation -/

/-- C9: for an account created at Unix time `t`, the entry's password-aging
attributes are exactly `sambaKickoffTime = sambaPwdMustChange =
t + 3600*24*60*60`, `sambaPwdLastSet = t`, `shadowLastChange = dataCriacao =
t / 86400` (truncating integer division), and `dataRenovacao =
t / 86400 + 3600`. -/
theorem C9_atributos_tempo (t : Int) :
    (atributosTempo t).sambaKickoffTime = t + 3600 * 24 * 60 * 60 ∧
    (atributosTempo t).sambaPwdMustChange = t + 3600 * 24 * 60 * 60 ∧
    (atributosTempo t).sambaPwdLastSet = t ∧
    (atributosTempo t).shadowLastChange = Int.tdiv t 86400 ∧
    (atributosTempo t).dataCriacao = Int.tdiv t 86400 ∧
    (atributosTempo t).dataRenovacao = Int.tdiv t 86400 + 3600 := by
  refine ⟨rfl, rfl, rfl, ?_, ?_, ?_⟩ <;> norm_num [atributosTempo]

/- ### C1: counter allocation retries -/

/-- Success case of the retry loop: since the loop re-attempts the very same
modify, any attempt at which the entry again holds the originally read
values succeeds with the originally computed increments. -/
theorem sambaIdsTentativas_ok (obs : Nat → Contadores) (lido prox : Contadores)
    (l : List Nat) (k : Nat) (hk : k ∈ l) (h : obs k = lido) :
    sambaIdsTentativas obs lido prox l = .ok prox := by
  induction l with
  | nil => cases hk
  | cons a r ih =>
    by_cases ha : obs a = lido
    · simp [sambaIdsTentativas, ha]
    · have : k ∈ r := by
        rcases List.mem_cons.mp hk with h1 | h1
        · exact absurd (h1 ▸ h) ha
        · exact h1
      simp [sambaIdsTentativas, ha, ih this]

/-- Failure case of the retry loop. -/
theorem sambaIdsTentativas_erro (obs : Nat → Contadores)
    (lido prox : Contadores) (l : List Nat)
    (h : ∀ k ∈ l, obs k ≠ lido) :
    sambaIdsTentativas obs lido prox l = .error .erroSamba := by
  induction l with
  | nil => rfl
  | cons a r ih =>
    have ha := h a (List.mem_cons_self a r)
    simp [sambaIdsTentativas, ha]
    exact ih (fun k hk => h k (List.mem_cons_of_mem a hk))

/-- C1 (amended): `samba_ids` reads the counters once (operation 0) and then
retries the identical delete-old/add-new modify up to five times with those
same stale values: it succeeds with the originally read values plus one
exactly when the entry again holds the original values at some attempt, and
fails with `ErroSamba` when all five attempts see different values — it
never re-reads fresh counter values between retries. -/
theorem C1_samba_ids_retentativas (obs : Nat → Contadores) :
    ((∃ k, 1 ≤ k ∧ k ≤ 5 ∧ obs k = obs 0) →
      samba_ids obs =
        .ok ⟨(obs 0).uidNumber + 1, (obs 0).sambaNextRid + 1⟩) ∧
    ((∀ k, 1 ≤ k → k ≤ 5 → obs k ≠ obs 0) →
      samba_ids obs = .error .erroSamba) := by
  constructor
  · rintro ⟨k, h1, h5, hk⟩
    apply sambaIdsTentativas_ok obs (obs 0) _ [1, 2, 3, 4, 5] k _ hk
    interval_cases k <;> decide
  · intro h
    apply sambaIdsTentativas_erro
    intro k hk
    simp only [List.mem_cons, List.not_mem_nil, or_false] at hk
    refine h k ?_ ?_ <;> omega

/-- Witness for C1: with the counters untouched between the read and the
first modify (a constant observation), allocation succeeds and returns the
incremented pair. -/
theorem C1_samba_ids_retentativas_witness :
    samba_ids (fun _ => ⟨1000, 2000⟩) = .ok ⟨1001, 2001⟩ :=
  (C1_samba_ids_retentativas (fun _ => ⟨1000, 2000⟩)).1
    ⟨1, by omega, by omega, rfl⟩

/-- Observation refuting the claim's "re-reading fresh values each retry": a
concurrent registration bumps both counters right after the initial read and
nothing changes afterwards. -/
def obsC1 : Nat → Contadores :=
  fun t => if t = 0 then ⟨10, 20⟩ else ⟨11, 21⟩

/-- Counterexample for C1: under `obsC1`, the code (`samba_ids`) exhausts
its five retries and fails with `ErroSamba`, while the spec's re-reading
loop (`samba_ids_segundo_spec`) would succeed on its second cycle — so the
code does not re-read fresh counter values on retry. -/
theorem C1_contraexemplo :
    samba_ids obsC1 = .error .erroSamba ∧
    samba_ids_segundo_spec obsC1 = .ok ⟨12, 22⟩ ∧
    samba_ids obsC1 ≠ samba_ids_segundo_spec obsC1 := by
  refine ⟨by decide, by decide, by decide⟩

/- ### C3, C10, C2: the orchestrator's reconciliation order -/

/-- A registration payload whose every field is valid, used to instantiate
the orchestrator theorems. -/
def dadosEx : DadosParaCadastro :=
  { dre := strOf "123456789"
    data := strOf "01/01/2025"
    hora := strOf "12:00"
    codigo := strOf "A3B1.7E5D.F002.19AC.4F6B.9D3E.82C1.BAAF"
    nome := asciiStr "Joao Silva"
    email := strOf "joao@exemplo.com"
    telefone := strOf "+5521987654321"
    senha := strOf "Senha123" }

/-- C3: whenever the directory probe settles on `CadastroRedundante`
(the identifier is already provisioned), the orchestrator fails with
`CadastroRedundante` carrying the existing username, whatever the document
verifier returned. -/
theorem C3_cadastro_redundante (dados : DadosParaCadastro)
    (dt hr cd uid : List Nat) (siga : Except ConsultaErro Consulta)
    (cu : Except ErroLdap Unit)
    (hdt : processar_data dados.data = some dt)
    (hhr : processar_hora dados.hora = some hr)
    (hcd : processar_codigo dados.codigo = some cd) :
    cadastrar dados siga (.ok (.cadastroRedundante uid)) cu =
      .error (.cadastroRedundante uid) := by
  simp [cadastrar, hdt, hhr, hcd]

/-- Witness for C3: a fully valid payload plus a probe answering
"already registered as joaocps" fails with that username even though the
document outcome is `Desconhecido`. -/
theorem C3_cadastro_redundante_witness :
    cadastrar dadosEx (.ok .desconhecido)
      (.ok (.cadastroRedundante (strOf "joaocps"))) (.ok ()) =
      .error (.cadastroRedundante (strOf "joaocps")) :=
  C3_cadastro_redundante dadosEx (strOf "01/01/2025") (strOf "12:00")
    (strOf "A3B1.7E5D.F002.19AC.4F6B.9D3E.82C1.BAAF") (strOf "joaocps")
    (.ok .desconhecido) (.ok ()) (by decide) (by decide) (by decide)

/-- C10: the reconciling comparison is between two `Result` values; when the
SIGA-returned official name fails to canonicalize while the self-reported
name parses, the `Ok ≠ Err` comparison makes the orchestrator fail with the
user-facing `NomesDiferentes` (not with the integration error
`ErroDeNome`). -/
theorem C10_nomes_como_results (dados : DadosParaCadastro)
    (dt hr cd uid : List Nat) (nomeSiga : List CharU) (e : NomeErro)
    (n : Nome) (cu : Except ErroLdap Unit)
    (hdt : processar_data dados.data = some dt)
    (hhr : processar_hora dados.hora = some hr)
    (hcd : processar_codigo dados.codigo = some cd)
    (hn : Nome.fromStr dados.nome = .ok n)
    (hs : Nome.fromStr nomeSiga = .error e) :
    cadastrar dados (.ok (.alunoDoCurso nomeSiga))
      (.ok (.cadastroDisponivel uid)) cu =
      .error (.nomesDiferentes dados.nome nomeSiga) := by
  simp [cadastrar, hdt, hhr, hcd, hn, hs]

/-- Witness for C10: the official name "Joao 2Silva" (a digit) fails to
canonicalize, the reported "Joao Silva" parses, and the outcome is
`NomesDiferentes` with both raw names. -/
theorem C10_nomes_como_results_witness :
    cadastrar dadosEx (.ok (.alunoDoCurso (asciiStr "Joao 2Silva")))
      (.ok (.cadastroDisponivel (strOf "joaos"))) (.ok ()) =
      .error (.nomesDiferentes (asciiStr "Joao Silva")
        (asciiStr "Joao 2Silva")) :=
  C10_nomes_como_results dadosEx (strOf "01/01/2025") (strOf "12:00")
    (strOf "A3B1.7E5D.F002.19AC.4F6B.9D3E.82C1.BAAF") (strOf "joaos")
    (asciiStr "Joao 2Silva") .caracterEstranho
    ⟨[strOf "joao", strOf "silva"]⟩ (.ok ()) (by decide) (by decide)
    (by decide) (by decide) (by decide)

/-- Counterexample for C2: a payload with an invalid e-mail address is not
rejected with `EmailInvalido` ahead of the external checks — with the
directory probe settling on `CadastroRedundante`, the orchestrator returns
`CadastroRedundante`, so the e-mail validator had not run before the
external outcomes were consumed. -/
theorem C2_contraexemplo :
    processar_email (strOf "email-invalido") = none ∧
    cadastrar { dadosEx with email := strOf "email-invalido" }
      (.ok (.alunoDoCurso (asciiStr "Joao Silva")))
      (.ok (.cadastroRedundante (strOf "joaocps"))) (.ok ()) =
      .error (.cadastroRedundante (strOf "joaocps")) ∧
    .error (.cadastroRedundante (strOf "joaocps")) ≠
      (Except.error (.emailInvalido (strOf "email-invalido")) :
        Except ErroDeCadastro (List Nat)) := by
  refine ⟨by decide, by decide, by decide⟩

/-- C2 (amended): only the date, time and signature-code validators run
before the external checks, each short-circuiting with its field error for
any external outcomes; once those three pass, the settled external outcomes
take precedence over every remaining field (an invalid identifier, name,
e-mail, phone or password does not pre-empt them); the remaining validators
run only after both external outcomes are consumed and the name
reconciliation passes, failing in the order identifier, name, e-mail,
phone, password. -/
theorem C2_ordem_de_validacao :
    (∀ (dados : DadosParaCadastro) siga ldap cu,
      processar_data dados.data = none →
      cadastrar dados siga ldap cu = .error (.dataInvalida dados.data)) ∧
    (∀ (dados : DadosParaCadastro) dt siga ldap cu,
      processar_data dados.data = some dt →
      processar_hora dados.hora = none →
      cadastrar dados siga ldap cu = .error (.horaInvalida dados.hora)) ∧
    (∀ (dados : DadosParaCadastro) dt hr siga ldap cu,
      processar_data dados.data = some dt →
      processar_hora dados.hora = some hr →
      processar_codigo dados.codigo = none →
      cadastrar dados siga ldap cu = .error (.codigoInvalido dados.codigo)) ∧
    (∀ (dados : DadosParaCadastro) dt hr cd uid siga cu,
      processar_data dados.data = some dt →
      processar_hora dados.hora = some hr →
      processar_codigo dados.codigo = some cd →
      cadastrar dados siga (.ok (.cadastroRedundante uid)) cu =
        .error (.cadastroRedundante uid)) ∧
    (∀ (dados : DadosParaCadastro) dt hr cd e siga cu,
      processar_data dados.data = some dt →
      processar_hora dados.hora = some hr →
      processar_codigo dados.codigo = some cd →
      cadastrar dados siga (.error e) cu = .error (.erroNoCadastro e)) ∧
    (∀ (dados : DadosParaCadastro) dt hr cd uid e cu,
      processar_data dados.data = some dt →
      processar_hora dados.hora = some hr →
      processar_codigo dados.codigo = some cd →
      cadastrar dados (.error e) (.ok (.cadastroDisponivel uid)) cu =
        .error (.erroNaConsulta e)) ∧
    (∀ (dados : DadosParaCadastro) dt hr cd uid nome curso cu,
      processar_data dados.data = some dt →
      processar_hora dados.hora = some hr →
      processar_codigo dados.codigo = some cd →
      cadastrar dados (.ok (.alunoOutroCurso nome curso))
        (.ok (.cadastroDisponivel uid)) cu =
        .error (.alunoOutroCurso curso)) ∧
    (∀ (dados : DadosParaCadastro) dt hr cd uid cu,
      processar_data dados.data = some dt →
      processar_hora dados.hora = some hr →
      processar_codigo dados.codigo = some cd →
      cadastrar dados (.ok .desconhecido)
        (.ok (.cadastroDisponivel uid)) cu = .error .documentoInvalido) ∧
    (∀ (dados : DadosParaCadastro) dt hr cd uid nomeSiga cu,
      processar_data dados.data = some dt →
      processar_hora dados.hora = some hr →
      processar_codigo dados.codigo = some cd →
      Nome.fromStr dados.nome ≠ Nome.fromStr nomeSiga →
      cadastrar dados (.ok (.alunoDoCurso nomeSiga))
        (.ok (.cadastroDisponivel uid)) cu =
        .error (.nomesDiferentes dados.nome nomeSiga)) ∧
    (∀ (dados : DadosParaCadastro) dt hr cd uid nomeSiga cu,
      processar_data dados.data = some dt →
      processar_hora dados.hora = some hr →
      processar_codigo dados.codigo = some cd →
      Nome.fromStr dados.nome = Nome.fromStr nomeSiga →
      processar_dre dados.dre = none →
      cadastrar dados (.ok (.alunoDoCurso nomeSiga))
        (.ok (.cadastroDisponivel uid)) cu =
        .error (.dreInvalido dados.dre)) ∧
    (∀ (dados : DadosParaCadastro) dt hr cd dre2 uid nomeSiga cu,
      processar_data dados.data = some dt →
      processar_hora dados.hora = some hr →
      processar_codigo dados.codigo = some cd →
      Nome.fromStr dados.nome = Nome.fromStr nomeSiga →
      processar_dre dados.dre = some dre2 →
      processar_nome dados.nome = none →
      cadastrar dados (.ok (.alunoDoCurso nomeSiga))
        (.ok (.cadastroDisponivel uid)) cu =
        .error (.nomeInvalido dados.nome)) ∧
    (∀ (dados : DadosParaCadastro) dt hr cd dre2 nm2 uid nomeSiga cu,
      processar_data dados.data = some dt →
      processar_hora dados.hora = some hr →
      processar_codigo dados.codigo = some cd →
      Nome.fromStr dados.nome = Nome.fromStr nomeSiga →
      processar_dre dados.dre = some dre2 →
      processar_nome dados.nome = some nm2 →
      processar_email dados.email = none →
      cadastrar dados (.ok (.alunoDoCurso nomeSiga))
        (.ok (.cadastroDisponivel uid)) cu =
        .error (.emailInvalido dados.email)) ∧
    (∀ (dados : DadosParaCadastro) dt hr cd dre2 nm2 em2 uid nomeSiga cu,
      processar_data dados.data = some dt →
      processar_hora dados.hora = some hr →
      processar_codigo dados.codigo = some cd →
      Nome.fromStr dados.nome = Nome.fromStr nomeSiga →
      processar_dre dados.dre = some dre2 →
      processar_nome dados.nome = some nm2 →
      processar_email dados.email = some em2 →
      processar_telefone dados.telefone = none →
      cadastrar dados (.ok (.alunoDoCurso nomeSiga))
        (.ok (.cadastroDisponivel uid)) cu =
        .error (.telefoneInvalido dados.telefone)) ∧
    (∀ (dados : DadosParaCadastro) dt hr cd dre2 nm2 em2 tel2 uid nomeSiga cu,
      processar_data dados.data = some dt →
      processar_hora dados.hora = some hr →
      processar_codigo dados.codigo = some cd →
      Nome.fromStr dados.nome = Nome.fromStr nomeSiga →
      processar_dre dados.dre = some dre2 →
      processar_nome dados.nome = some nm2 →
      processar_email dados.email = some em2 →
      processar_telefone dados.telefone = some tel2 →
      validar_senha dados.senha = false →
      cadastrar dados (.ok (.alunoDoCurso nomeSiga))
        (.ok (.cadastroDisponivel uid)) cu = .error .senhaInvalida) := by
  refine ⟨?_, ?_, ?_, ?_, ?_, ?_, ?_, ?_, ?_, ?_, ?_, ?_, ?_, ?_⟩
  · intro dados siga ldap cu h
    simp [cadastrar, h]
  · intro dados dt siga ldap cu h1 h2
    simp [cadastrar, h1, h2]
  · intro dados dt hr siga ldap cu h1 h2 h3
    simp [cadastrar, h1, h2, h3]
  · intro dados dt hr cd uid siga cu h1 h2 h3
    simp [cadastrar, h1, h2, h3]
  · intro dados dt hr cd e siga cu h1 h2 h3
    simp [cadastrar, h1, h2, h3]
  · intro dados dt hr cd uid e cu h1 h2 h3
    simp [cadastrar, h1, h2, h3]
  · intro dados dt hr cd uid nome curso cu h1 h2 h3
    simp [cadastrar, h1, h2, h3]
  · intro dados dt hr cd uid cu h1 h2 h3
    simp [cadastrar, h1, h2, h3]
  · intro dados dt hr cd uid nomeSiga cu h1 h2 h3 h4
    simp [cadastrar, h1, h2, h3, h4]
  · intro dados dt hr cd uid nomeSiga cu h1 h2 h3 h4 h5
    simp [cadastrar, h1, h2, h3, h4, cadastrar_sem_verificar_documento, h5]
  · intro dados dt hr cd dre2 uid nomeSiga cu h1 h2 h3 h4 h5 h6
    simp [cadastrar, h1, h2, h3, h4, cadastrar_sem_verificar_documento, h5,
      h6]
  · intro dados dt hr cd dre2 nm2 uid nomeSiga cu h1 h2 h3 h4 h5 h6 h7
    simp [cadastrar, h1, h2, h3, h4, cadastrar_sem_verificar_documento, h5,
      h6, h7]
  · intro dados dt hr cd dre2 nm2 em2 uid nomeSiga cu h1 h2 h3 h4 h5 h6 h7
      h8
    simp [cadastrar, h1, h2, h3, h4, cadastrar_sem_verificar_documento, h5,
      h6, h7, h8]
  · intro dados dt hr cd dre2 nm2 em2 tel2 uid nomeSiga cu h1 h2 h3 h4 h5 h6
      h7 h8 h9
    simp [cadastrar, h1, h2, h3, h4, cadastrar_sem_verificar_documento, h5,
      h6, h7, h8, h9]

/-- Witness for C2 (amended): a malformed date short-circuits with
`DataInvalida` for arbitrary oracle outcomes. -/
theorem C2_ordem_de_validacao_witness :
    cadastrar { dadosEx with data := strOf "ontem" } (.ok .desconhecido)
      (.ok (.cadastroRedundante (strOf "joaocps"))) (.ok ()) =
      .error (.dataInvalida (strOf "ontem")) :=
  C2_ordem_de_validacao.1 { dadosEx with data := strOf "ontem" }
    (.ok .desconhecido) (.ok (.cadastroRedundante (strOf "joaocps")))
    (.ok ()) (by decide)

/- ### C7 and C6: the salted-hash pair -/

/-- A stored hash on which `compare_ssha` panics: missing `\x7bSSHA\x7d`
label, invalid base64 after the label, or a decoded length other than 24
bytes. -/
def hashMalformado (hash : List Nat) : Bool :=
  match tirarRotulo rotuloSSHA hash with
  | none => true
  | some semRotulo =>
    match base64Decode semRotulo with
    | none => true
    | some bytes => bytes.length != 24

/-- C7: on every malformed stored hash — label missing, base64 invalid, or
decoded length different from 24 — `compare_ssha` aborts (modelled `none`)
instead of returning `false`. -/
theorem C7_compare_ssha_aborta (sha1 : List Nat → List Nat)
    (passwd hash : List Nat) (h : hashMalformado hash = true) :
    compare_ssha sha1 passwd hash = none := by
  unfold hashMalformado at h
  unfold compare_ssha
  cases hr : tirarRotulo rotuloSSHA hash with
  | none => rfl
  | some semRotulo =>
    rw [hr] at h
    cases hd : base64Decode semRotulo with
    | none => simp [hd]
    | some bytes =>
      simp only [hd, bne_iff_ne, ne_eq] at h
      by_cases h20 : 20 ≤ bytes.length
      · simp only [hd, h20, if_true, List.length_drop]
        rw [if_neg]
        omega
      · simp [hd, h20]

/-- Witness for C7: a stored value without the SSHA label makes
`compare_ssha` abort. -/
theorem C7_compare_ssha_aborta_witness :
    compare_ssha (fun _ => List.replicate 20 0) (strOf "12345678")
      (strOf "AAAA") = none :=
  C7_compare_ssha_aborta (fun _ => List.replicate 20 0) (strOf "12345678")
    (strOf "AAAA") (by decide)

/-- Every 6-bit index decodes back from its base64 character. -/
theorem b64Indice_b64Char : ∀ i < 64, b64Indice (b64Char i) = some i := by
  decide

/-- No base64 alphabet character is the padding character `=`. -/
theorem b64Char_ne_igual : ∀ i < 64, b64Char i ≠ 61 := by decide

/-- Base64 round trip on byte lists whose length is a multiple of three. -/
theorem base64_roundtrip :
    ∀ bs : List Nat, (∀ b ∈ bs, b < 256) → bs.length % 3 = 0 →
      base64Decode (base64Encode bs) = some bs
  | [], _, _ => rfl
  | [b1], _, h3 => by simp at h3
  | [b1, b2], _, h3 => by simp at h3
  | b1 :: b2 :: b3 :: resto, h, h3 => by
    have hb1 : b1 < 256 := h b1 (by simp)
    have hb2 : b2 < 256 := h b2 (by simp)
    have hb3 : b3 < 256 := h b3 (by simp)
    have hrec := base64_roundtrip resto
      (fun b hb => h b (by simp [hb])) (by simp at h3; omega)
    have e1 := b64Indice_b64Char (b1 / 4) (by omega)
    have e2 := b64Indice_b64Char (b1 % 4 * 16 + b2 / 16) (by omega)
    have e3 := b64Indice_b64Char (b2 % 16 * 4 + b3 / 64) (by omega)
    have e4 := b64Indice_b64Char (b3 % 64) (by omega)
    have n3 := b64Char_ne_igual (b2 % 16 * 4 + b3 / 64) (by omega)
    have n4 := b64Char_ne_igual (b3 % 64) (by omega)
    show base64Decode (b64Char (b1 / 4) :: b64Char (b1 % 4 * 16 + b2 / 16) ::
      b64Char (b2 % 16 * 4 + b3 / 64) :: b64Char (b3 % 64) ::
      base64Encode resto) = _
    rw [base64Decode]
    simp only [e1, e2, e3, e4, n3, n4, if_neg, Option.bind_eq_bind,
      Option.some_bind, hrec]
    have v1 : b1 / 4 * 4 + (b1 % 4 * 16 + b2 / 16) / 16 = b1 := by omega
    have v2 : (b1 % 4 * 16 + b2 / 16) % 16 * 16 +
        (b2 % 16 * 4 + b3 / 64) / 4 = b2 := by omega
    have v3 : (b2 % 16 * 4 + b3 / 64) % 4 * 64 + b3 % 64 = b3 := by omega
    simp [v1, v2, v3]

/-- Stripping a label from a string that starts with it succeeds with the
remainder. -/
theorem tirarRotulo_append (p s : List Nat) : tirarRotulo p (p ++ s) = some s := by
  induction p with
  | nil => rfl
  | cons c r ih => simp [tirarRotulo, ih]

/-- C6: for every secret and every 4-byte salt the generator may draw,
verifying the generated hash against the same secret succeeds:
`compare_ssha (secret, hash_ssha_with_salt (secret, salt))` returns `true`
(for any 20-byte digest function in place of SHA1). -/
theorem C6_comparar_gerar (sha1 : List Nat → List Nat)
    (hlen : ∀ x, (sha1 x).length = 20)
    (hbyte : ∀ x, ∀ b ∈ sha1 x, b < 256)
    (passwd salt : List Nat) (hs : salt.length = 4)
    (hsb : ∀ b ∈ salt, b < 256) :
    compare_ssha sha1 passwd (hash_ssha_with_salt sha1 passwd salt) =
      some true := by
  have hall : ∀ b ∈ sha1 (passwd ++ salt) ++ salt, b < 256 := by
    intro b hb
    rcases List.mem_append.mp hb with hb | hb
    · exact hbyte _ b hb
    · exact hsb b hb
  have h3 : (sha1 (passwd ++ salt) ++ salt).length % 3 = 0 := by
    simp [hlen, hs]
  have hdrop : List.drop 20 (sha1 (passwd ++ salt) ++ salt) = salt := by
    have h := List.drop_left (sha1 (passwd ++ salt)) salt
    rwa [hlen] at h
  have h24 : (sha1 (passwd ++ salt) ++ salt).length = 24 := by
    simp [hlen, hs]
  unfold compare_ssha
  rw [show hash_ssha_with_salt sha1 passwd salt =
    rotuloSSHA ++ base64Encode (sha1 (passwd ++ salt) ++ salt) from rfl]
  rw [tirarRotulo_append]
  simp only [base64_roundtrip _ hall h3, h24, hdrop, hs]
  norm_num
  rfl

/-- Witness for C6: a concrete digest function, secret and salt. -/
theorem C6_comparar_gerar_witness :
    compare_ssha (fun _ => List.replicate 20 7) (strOf "12345678")
      (hash_ssha_with_salt (fun _ => List.replicate 20 7)
        (strOf "12345678") [1, 2, 3, 4]) = some true :=
  C6_comparar_gerar (fun _ => List.replicate 20 7)
    (fun _ => by simp) (fun x b hb => by
      have := List.eq_of_mem_replicate hb
      omega)
    (strOf "12345678") [1, 2, 3, 4] (by decide) (by decide)

/- ### C4: username candidate enumeration -/

/-- The mask whose bits are those of `i` (most significant first, width `k`):
the binary-counter reading of the mask enumeration. -/
def mascaraDe : Nat → Nat → List Bool
  | 0, _ => []
  | k + 1, i => (i / 2 ^ k % 2 == 1) :: mascaraDe k i

/-- Adding `2 ^ k` to the index leaves the low `k` mask bits unchanged. -/
theorem mascaraDe_add (k : Nat) : ∀ i, mascaraDe k (2 ^ k + i) = mascaraDe k i := by
  induction k with
  | zero => intro i; rfl
  | succ k ih =>
    intro i
    show ((2 ^ (k + 1) + i) / 2 ^ k % 2 == 1) :: mascaraDe k (2 ^ (k + 1) + i) =
      (i / 2 ^ k % 2 == 1) :: mascaraDe k i
    have h2 : 2 ^ (k + 1) + i = 2 ^ k + (2 ^ k + i) := by ring
    have hdiv : (2 ^ (k + 1) + i) / 2 ^ k = 2 + i / 2 ^ k := by
      have : 2 ^ (k + 1) + i = 2 ^ k * 2 + i := by ring
      rw [this, Nat.mul_add_div (Nat.pos_pow_of_pos k (by omega))]
    rw [hdiv, h2, ih, ih]
    have : (2 + i / 2 ^ k) % 2 = i / 2 ^ k % 2 := by omega
    rw [this]

/-- The `multi_cartesian_product` enumeration is exactly binary counting:
the `i`-th mask is the bit pattern of `i`, most significant bit first. -/
theorem produtoCartesiano_eq_contagem (k : Nat) :
    produtoCartesiano k = (List.range (2 ^ k)).map (mascaraDe k) := by
  induction k with
  | zero => rfl
  | succ k ih =>
    have hsplit : 2 ^ (k + 1) = 2 ^ k + 2 ^ k := by ring
    rw [produtoCartesiano, hsplit, List.range_add, List.map_append,
      List.map_map]
    have hfalse : (List.range (2 ^ k)).map (mascaraDe (k + 1)) =
        (produtoCartesiano k).map (fun m => false :: m) := by
      rw [ih, List.map_map]
      apply List.map_congr_left
      intro i hi
      have hi' : i < 2 ^ k := List.mem_range.mp hi
      show mascaraDe (k + 1) i = false :: mascaraDe k i
      have : i / 2 ^ k = 0 := Nat.div_eq_of_lt hi'
      simp [mascaraDe, this]
    have htrue : (List.range (2 ^ k)).map (mascaraDe (k + 1) ∘ (2 ^ k + ·)) =
        (produtoCartesiano k).map (fun m => true :: m) := by
      rw [ih, List.map_map]
      apply List.map_congr_left
      intro i hi
      have hi' : i < 2 ^ k := List.mem_range.mp hi
      show mascaraDe (k + 1) (2 ^ k + i) = true :: mascaraDe k i
      have hdiv : (2 ^ k + i) / 2 ^ k = 1 := by
        have h1 : (2 ^ k + i) / 2 ^ k = 1 + i / 2 ^ k := by
          have : 2 ^ k + i = 2 ^ k * 1 + i := by ring
          rw [this, Nat.mul_add_div (Nat.pos_pow_of_pos k (by omega))]
        rw [h1, Nat.div_eq_of_lt hi']
      show ((2 ^ k + i) / 2 ^ k % 2 == 1) :: mascaraDe k (2 ^ k + i) = _
      rw [hdiv, mascaraDe_add]
      rfl
    rw [hfalse, htrue]
    simp [List.flatMap]

/-- Counterexample for C4: for the valid name "A B C" all four mask
expansions are the same string "abc" (single-letter surname tokens), so the
output sequence has duplicates. -/
theorem C4_contraexemplo :
    Nome.fromStr (asciiStr "A B C") =
      .ok ⟨[strOf "a", strOf "b", strOf "c"]⟩ ∧
    Nome.usernames ⟨[strOf "a", strOf "b", strOf "c"]⟩ =
      [strOf "abc", strOf "abc", strOf "abc", strOf "abc"] ∧
    ¬ (Nome.usernames ⟨[strOf "a", strOf "b", strOf "c"]⟩).Nodup := by
  refine ⟨by decide, by decide, by decide⟩

/-- The name "JOÃO CARLOS PEREIRA DA SILVA" over the modelled alphabet. -/
def nomeJoaoCarlos : List CharU :=
  asciiStr "JO" ++ [.latin 65 3] ++ asciiStr "O CARLOS PEREIRA DA SILVA"

/-- C4 (amended): `usernames` yields one candidate per mask over the `k`
surname tokens — the `i`-th mask being the binary digits of `i`, most
significant bit on the surname closest to the given name, `false` = initial
and `true` = full token — filtered to length < 20, in that binary-counter
order; duplicates occur exactly when distinct masks expand to the same
string.  For "JOÃO CARLOS PEREIRA DA SILVA" the output is the documented
7-candidate sequence, the all-full expansion "joaocarlospereirasilva"
(length 22) being dropped by the filter. -/
theorem C4_usernames_enumeracao :
    (∀ n : Nome, n.usernames =
      ((List.range (2 ^ (n.palavras.length - 1))).map
        (fun i => expansaoSobrenomica (mascaraDe (n.palavras.length - 1) i)
          n.palavras)).filter (fun u => u.length < 20)) ∧
    Nome.fromStr nomeJoaoCarlos =
      .ok ⟨[strOf "joao", strOf "carlos", strOf "pereira", strOf "silva"]⟩ ∧
    Nome.usernames
        ⟨[strOf "joao", strOf "carlos", strOf "pereira", strOf "silva"]⟩ =
      [strOf "joaocps", strOf "joaocpsilva", strOf "joaocpereiras",
        strOf "joaocpereirasilva", strOf "joaocarlosps",
        strOf "joaocarlospsilva", strOf "joaocarlospereiras"] ∧
    (expansaoSobrenomica [true, true, true]
      [strOf "joao", strOf "carlos", strOf "pereira", strOf "silva"]).length
      = 22 := by
  refine ⟨?_, by decide, by decide, by decide⟩
  intro n
  unfold Nome.usernames
  rw [produtoCartesiano_eq_contagem, List.map_map]
  rfl

/- ### C5: canonicalization errors -/

/-- A character that makes `Nome::from_str` fail with `CaracterEstranho`:
after the sanitizing pipeline it leaves an ASCII scalar that is neither a
lowercase letter nor a space.  Non-ASCII characters without an ASCII base
(`outro`) leave nothing and never trigger the error. -/
def sanBadChar : CharU → Bool
  | .ascii c => !ehMinusculaOuEspaco (toLowerA c)
  | .latin b _ => !ehMinusculaOuEspaco (toLowerA b)
  | .cedilha _ => false
  | .outro _ => false

/-- Whether a character is in the `outro` class of the alphabet. -/
def CharU.ehOutro : CharU → Bool
  | .outro _ => true
  | .ascii _ => false
  | .latin _ _ => false
  | .cedilha _ => false

/-- The token list that `Nome::from_str` builds before the truncation to 10:
sanitized scalars split on whitespace, with empties and particles removed. -/
def tokensDe (s : List CharU) : List (List Nat) :=
  ((palavrasG isWs
      (((s.map CharU.substCedilha).flatMap CharU.nfdAscii).map toLowerA)).filter
    (fun x => !x.isEmpty)).filter (fun x => !particulas.contains x)

/-- Fusing the cedilla replacement into the decomposition step. -/
theorem map_flatMap_fusao (s : List CharU) :
    (s.map CharU.substCedilha).flatMap CharU.nfdAscii =
      s.flatMap (fun c => (CharU.substCedilha c).nfdAscii) := by
  induction s with
  | nil => rfl
  | cons c r ih => simp [ih]

/-- Dropping `outro` characters leaves the sanitized scalars unchanged. -/
theorem flatMap_filtro_outro : ∀ s : List CharU,
    ((s.filter (fun c => !c.ehOutro)).flatMap
      (fun c => (CharU.substCedilha c).nfdAscii)) =
      s.flatMap (fun c => (CharU.substCedilha c).nfdAscii)
  | [] => rfl
  | c :: r => by
    rw [List.filter_cons]
    cases c with
    | ascii c0 =>
      rw [if_pos (by simp [CharU.ehOutro])]
      simp only [List.flatMap_cons, flatMap_filtro_outro r]
    | latin b a =>
      rw [if_pos (by simp [CharU.ehOutro])]
      simp only [List.flatMap_cons, flatMap_filtro_outro r]
    | cedilha m =>
      rw [if_pos (by simp [CharU.ehOutro])]
      simp only [List.flatMap_cons, flatMap_filtro_outro r]
    | outro t =>
      rw [if_neg (by simp [CharU.ehOutro])]
      rw [flatMap_filtro_outro r, List.flatMap_cons]
      simp [CharU.substCedilha, CharU.nfdAscii]

/-- Counterexample for C5: the input "jo☺ silva" contains the non-Latin
character `☺` (scalar 9786), which is neither a letter nor a space; yet
`Nome::from_str` silently drops it and succeeds instead of failing with
`CaracterEstranho`. -/
theorem C5_contraexemplo :
    Nome.fromStr (asciiStr "jo" ++ [CharU.outro 9786] ++ asciiStr " silva") =
      .ok ⟨[strOf "jo", strOf "silva"]⟩ ∧
    Nome.fromStr (asciiStr "jo" ++ [CharU.outro 9786] ++ asciiStr " silva") ≠
      .error .caracterEstranho := by
  refine ⟨by decide, by decide⟩

/-- C5 (amended): `Nome::from_str` fails with `CaracterEstranho` exactly for
characters that sanitize to an offending ASCII scalar — any ASCII character
that is not a letter or a space (digits, punctuation), or an accented
letter whose base is not a letter; non-ASCII characters with no ASCII
decomposition are dropped, not rejected (removing them does not change the
result).  When no character triggers the error and, after particle removal,
fewer than two tokens remain, it fails with `NomeCurto`. -/
theorem C5_fromStr_erros :
    (∀ s : List CharU, (∃ c ∈ s, sanBadChar c = true) →
      Nome.fromStr s = .error .caracterEstranho) ∧
    (∀ s : List CharU, (∀ c ∈ s, sanBadChar c = false) →
      (tokensDe s).length < 2 → Nome.fromStr s = .error .nomeCurto) ∧
    (∀ s : List CharU,
      Nome.fromStr (s.filter (fun c => !c.ehOutro)) = Nome.fromStr s) := by
  refine ⟨?_, ?_, ?_⟩
  · rintro s ⟨c, hc, hbad⟩
    have hex : ∃ x ∈ ((s.map CharU.substCedilha).flatMap
        CharU.nfdAscii).map toLowerA, ehMinusculaOuEspaco x = false := by
      rw [map_flatMap_fusao]
      cases c with
      | ascii c0 =>
        refine ⟨toLowerA c0, ?_, ?_⟩
        · simp only [List.mem_map, List.mem_flatMap]
          exact ⟨c0, ⟨.ascii c0, hc,
            by simp [CharU.substCedilha, CharU.nfdAscii]⟩, rfl⟩
        · simpa [sanBadChar] using hbad
      | latin b a =>
        refine ⟨toLowerA b, ?_, ?_⟩
        · simp only [List.mem_map, List.mem_flatMap]
          exact ⟨b, ⟨.latin b a, hc,
            by simp [CharU.substCedilha, CharU.nfdAscii]⟩, rfl⟩
        · simpa [sanBadChar] using hbad
      | cedilha m => simp [sanBadChar] at hbad
      | outro t => simp [sanBadChar] at hbad
    rcases hex with ⟨x, hx, hxf⟩
    have hall : (((s.map CharU.substCedilha).flatMap
        CharU.nfdAscii).map toLowerA).all ehMinusculaOuEspaco = false := by
      apply Bool.eq_false_iff.mpr
      intro hcon
      rw [List.all_eq_true] at hcon
      have hfx := hcon x hx
      rw [hxf] at hfx
      cases hfx
    have hsan : sanitizar s = none := by
      unfold sanitizar
      simp [hall]
    unfold Nome.fromStr
    rw [hsan]
  · intro s hboa hlen
    have hall : (((s.map CharU.substCedilha).flatMap
        CharU.nfdAscii).map toLowerA).all ehMinusculaOuEspaco = true := by
      rw [List.all_eq_true]
      intro x hx
      rw [map_flatMap_fusao] at hx
      rcases List.mem_map.mp hx with ⟨y, hy, rfl⟩
      rcases List.mem_flatMap.mp hy with ⟨c, hcs, hyc⟩
      have hb := hboa c hcs
      cases c with
      | ascii c0 =>
        simp only [CharU.substCedilha, CharU.nfdAscii,
          List.mem_singleton] at hyc
        subst hyc
        simpa [sanBadChar] using hb
      | latin b a =>
        simp only [CharU.substCedilha, CharU.nfdAscii,
          List.mem_singleton] at hyc
        subst hyc
        simpa [sanBadChar] using hb
      | cedilha m =>
        simp only [CharU.substCedilha, CharU.nfdAscii,
          List.mem_singleton] at hyc
        subst hyc
        cases m <;> decide
      | outro t =>
        simp [CharU.substCedilha, CharU.nfdAscii] at hyc
    have hsan : sanitizar s = some (((s.map CharU.substCedilha).flatMap
        CharU.nfdAscii).map toLowerA) := by
      unfold sanitizar
      simp [hall]
    unfold Nome.fromStr
    rw [hsan]
    unfold tokensDe at hlen
    split
    · rename_i hv
      exact Option.noConfusion hv
    · rename_i cs hv
      injection hv with hcs
      subst hcs
      exact if_neg (by rw [List.length_take]; omega)
  · intro s
    unfold Nome.fromStr sanitizar
    rw [map_flatMap_fusao, map_flatMap_fusao, flatMap_filtro_outro]

/-- Witness for C5 (amended): "Carlos 71" (a digit) fails with
`CaracterEstranho`; "José" fails with `NomeCurto`. -/
theorem C5_fromStr_erros_witness :
    Nome.fromStr (asciiStr "Carlos 71") = .error .caracterEstranho ∧
    Nome.fromStr (asciiStr "Jos" ++ [CharU.latin 101 1]) =
      .error .nomeCurto :=
  ⟨C5_fromStr_erros.1 (asciiStr "Carlos 71")
      ⟨.ascii 55, by decide, by decide⟩,
    C5_fromStr_erros.2.1 (asciiStr "Jos" ++ [CharU.latin 101 1])
      (by decide) (by decide)⟩

/- ### C8: validator idempotence -/

/-- A whitespace scalar is never a digit. -/
theorem isDigit_nao_isWs {c : Nat} (h : isDigit c = true) : isWs c = false := by
  simp [isDigit] at h
  simp [isWs]
  omega

/-- An uppercase-hex scalar is never whitespace. -/
theorem isHexM_nao_isWs {c : Nat} (h : isHexM c = true) : isWs c = false := by
  simp [isHexM] at h
  simp [isWs]
  omega

/-- `takeWhile` keeps a list all of whose elements satisfy the test. -/
theorem takeWhile_tudo {α : Type} {p : α → Bool} :
    ∀ {l : List α}, (∀ x ∈ l, p x = true) → l.takeWhile p = l := by
  intro l
  induction l with
  | nil => intro _; rfl
  | cons c r ih =>
    intro h
    rw [List.takeWhile_cons, if_pos (h c (by simp))]
    rw [ih (fun x hx => h x (by simp [hx]))]

/-- `dropWhile` empties a list all of whose elements satisfy the test. -/
theorem dropWhile_tudo {α : Type} {p : α → Bool} :
    ∀ {l : List α}, (∀ x ∈ l, p x = true) → l.dropWhile p = [] := by
  intro l
  induction l with
  | nil => intro _; rfl
  | cons c r ih =>
    intro h
    rw [List.dropWhile_cons, if_pos (h c (by simp))]
    exact ih (fun x hx => h x (by simp [hx]))

/-- `dropWhile` is the identity when no element satisfies the test. -/
theorem dropWhile_nenhum {α : Type} {p : α → Bool} :
    ∀ {l : List α}, (∀ x ∈ l, p x = false) → l.dropWhile p = l := by
  intro l
  cases l with
  | nil => intro _; rfl
  | cons c r =>
    intro h
    rw [List.dropWhile_cons, if_neg (by rw [h c (by simp)]; simp)]

/-- `takeWhile` over an append whose left part satisfies the test. -/
theorem takeWhile_app {α : Type} {p : α → Bool} :
    ∀ (xs ys : List α), (∀ x ∈ xs, p x = true) →
      (xs ++ ys).takeWhile p = xs ++ ys.takeWhile p := by
  intro xs ys h
  induction xs with
  | nil => rfl
  | cons c r ih =>
    rw [List.cons_append, List.takeWhile_cons, if_pos (h c (by simp))]
    rw [ih (fun x hx => h x (by simp [hx]))]
    rfl

/-- `dropWhile` over an append whose left part satisfies the test. -/
theorem dropWhile_app {α : Type} {p : α → Bool} :
    ∀ (xs ys : List α), (∀ x ∈ xs, p x = true) →
      (xs ++ ys).dropWhile p = ys.dropWhile p := by
  intro xs ys h
  induction xs with
  | nil => rfl
  | cons c r ih =>
    rw [List.cons_append, List.dropWhile_cons, if_pos (h c (by simp))]
    exact ih (fun x hx => h x (by simp [hx]))

/-- Appending one digit multiplies the value by ten. -/
theorem digitosParaNat_app_um (l : List Nat) (d : Nat) :
    digitosParaNat (l ++ [d]) = digitosParaNat l * 10 + (d - 48) := by
  unfold digitosParaNat
  rw [List.foldl_append]
  rfl

/-- Specification of the fuel-driven printer under sufficient fuel: digits
only, value round trip, nonempty. -/
theorem natParaDigitosAux_spec :
    ∀ (f n : Nat), n < 10 ^ (f + 1) →
      (∀ c ∈ natParaDigitosAux (f + 1) n, isDigit c = true) ∧
      digitosParaNat (natParaDigitosAux (f + 1) n) = n ∧
      natParaDigitosAux (f + 1) n ≠ [] := by
  intro f
  induction f with
  | zero =>
    intro n hn
    have h10 : n < 10 := by simpa using hn
    rw [show natParaDigitosAux 1 n = [48 + n] from by
      simp [natParaDigitosAux, h10]]
    refine ⟨?_, ?_, by simp⟩
    · intro c hc
      simp at hc
      simp [isDigit]
      omega
    · simp [digitosParaNat]
  | succ f ih =>
    intro n hn
    by_cases h10 : n < 10
    · rw [show natParaDigitosAux (f + 1 + 1) n = [48 + n] from by
        simp [natParaDigitosAux, h10]]
      refine ⟨?_, ?_, by simp⟩
      · intro c hc
        simp at hc
        simp [isDigit]
        omega
      · simp [digitosParaNat]
    · have hdivlt : n / 10 < 10 ^ (f + 1) := by
        rw [Nat.div_lt_iff_lt_mul (by omega)]
        calc n < 10 ^ (f + 1 + 1) := hn
        _ = 10 ^ (f + 1) * 10 := by ring
      obtain ⟨ihd, ihv, ihne⟩ := ih (n / 10) hdivlt
      rw [show natParaDigitosAux (f + 1 + 1) n =
        natParaDigitosAux (f + 1) (n / 10) ++ [48 + n % 10] from by
        rw [natParaDigitosAux, if_neg h10]]
      refine ⟨?_, ?_, by simp⟩
      · intro c hc
        rcases List.mem_append.mp hc with hc | hc
        · exact ihd c hc
        · simp at hc
          simp [isDigit]
          omega
      · rw [digitosParaNat_app_um, ihv]
        omega

/-- Length bound for the printer: at most one character per power of ten. -/
theorem natParaDigitosAux_len :
    ∀ (f k n : Nat), n < 10 ^ (k + 1) →
      (natParaDigitosAux f n).length ≤ k + 1 := by
  intro f
  induction f with
  | zero =>
    intro k n _
    simp [natParaDigitosAux]
  | succ f ih =>
    intro k n hn
    by_cases h10 : n < 10
    · rw [natParaDigitosAux, if_pos h10]
      simp
    · rw [natParaDigitosAux, if_neg h10]
      cases k with
      | zero =>
        exfalso
        simp at hn
        omega
      | succ k =>
        have hdivlt : n / 10 < 10 ^ (k + 1) := by
          rw [Nat.div_lt_iff_lt_mul (by omega)]
          calc n < 10 ^ (k + 1 + 1) := hn
          _ = 10 ^ (k + 1) * 10 := by ring
        have := ih k (n / 10) hdivlt
        rw [List.length_append]
        simp only [List.length_cons, List.length_nil]
        omega

/-- Specification of `natParaDigitos`. -/
theorem natParaDigitos_spec (n : Nat) :
    (∀ c ∈ natParaDigitos n, isDigit c = true) ∧
    digitosParaNat (natParaDigitos n) = n ∧ natParaDigitos n ≠ [] := by
  have hfuel : n < 10 ^ (n + 1) := by
    calc n < 10 ^ n := Nat.lt_pow_self (by omega) n
    _ ≤ 10 ^ (n + 1) := Nat.pow_le_pow_right (by omega) (by omega)
  exact natParaDigitosAux_spec n n hfuel

/-- Specification of `pad2` for values below 100: digits only, value round
trip, nonempty, at most two characters. -/
theorem pad2_spec (d : Nat) (h : d < 100) :
    (∀ c ∈ pad2 d, isDigit c = true) ∧ digitosParaNat (pad2 d) = d ∧
    pad2 d ≠ [] ∧ (pad2 d).length ≤ 2 := by
  by_cases h10 : d < 10
  · rw [show pad2 d = [48, 48 + d] from by simp [pad2, h10]]
    refine ⟨?_, ?_, by simp, by simp⟩
    · intro c hc
      rcases List.mem_cons.mp hc with hc | hc
      · simp [hc, isDigit]
      · simp at hc
        simp [hc, isDigit]
        omega
    · simp [digitosParaNat, List.foldl]
  · rw [show pad2 d = natParaDigitos d from by simp [pad2, h10]]
    obtain ⟨hd, hv, hne⟩ := natParaDigitos_spec d
    refine ⟨hd, hv, hne, ?_⟩
    exact natParaDigitosAux_len (d + 1) 1 d (by omega)

/-- `processar_dre` is idempotent: its output, nine digits, re-validates to
itself. -/
theorem processar_dre_idem (s c : List Nat) (h : processar_dre s = some c) :
    processar_dre c = some c := by
  simp only [processar_dre] at h
  split at h
  case isFalse => cases h
  case isTrue hcond =>
    injection h with h
    subst h
    rw [Bool.and_eq_true, beq_iff_eq] at hcond
    obtain ⟨hlen, _⟩ := hcond
    have hdig : ∀ x ∈ (s.dropWhile isWs).takeWhile isDigit, isDigit x = true :=
      fun x hx => List.mem_takeWhile_imp hx
    simp only [processar_dre]
    rw [dropWhile_nenhum (fun x hx => isDigit_nao_isWs (hdig x hx))]
    rw [takeWhile_tudo hdig, dropWhile_tudo hdig]
    simp [hlen]

/-- Generalized digit-value bound over the fold accumulator. -/
theorem foldl_digitos_lt (l : List Nat) :
    ∀ acc, (∀ d ∈ l, isDigit d = true) →
      List.foldl (fun acc d => acc * 10 + (d - 48)) acc l <
        (acc + 1) * 10 ^ l.length := by
  induction l with
  | nil =>
    intro acc _
    simp only [List.foldl_nil, List.length_nil, pow_zero, mul_one]
    omega
  | cons d r ih =>
    intro acc h
    have hd := h d (by simp)
    have h9 : d - 48 ≤ 9 := by
      simp [isDigit] at hd
      omega
    have step := ih (acc * 10 + (d - 48)) (fun x hx => h x (by simp [hx]))
    simp only [List.foldl_cons, List.length_cons]
    refine lt_of_lt_of_le step ?_
    calc (acc * 10 + (d - 48) + 1) * 10 ^ r.length
        ≤ (acc + 1) * 10 * 10 ^ r.length :=
          Nat.mul_le_mul_right _ (by omega)
      _ = (acc + 1) * 10 ^ (r.length + 1) := by ring

/-- A list of `n` digit characters has value below `10 ^ n`. -/
theorem digitosParaNat_lt (l : List Nat) (h : ∀ d ∈ l, isDigit d = true) :
    digitosParaNat l < 10 ^ l.length := by
  have := foldl_digitos_lt l 0 h
  simpa [digitosParaNat] using this

/-- The output shape of `data_re1`: a formatted date with day and month
below 100 and year at most 9999. -/
theorem data_re1_forma (s c : List Nat) (h : data_re1 s = some c) :
    ∃ d m a, d < 100 ∧ m < 100 ∧ a ≤ 9999 ∧ c = formatar_data d m a := by
  simp only [data_re1] at h
  split at h
  case isFalse => cases h
  case isTrue hd =>
    split at h
    case h_2 => cases h
    case h_1 s3 heq3 =>
      split at h
      case isFalse => cases h
      case isTrue hm =>
        split at h
        case h_2 => cases h
        case h_1 s6 heq6 =>
          split at h
          case isFalse => cases h
          case isTrue ha =>
            injection h with h
            refine ⟨_, _, _, ?_, ?_, ?_, h.symm⟩
            · have hb := digitosParaNat_lt
                ((s.dropWhile isWs).takeWhile isDigit)
                (fun x hx => List.mem_takeWhile_imp hx)
              have : (10 : Nat) ^
                  ((s.dropWhile isWs).takeWhile isDigit).length ≤ 10 ^ 2 :=
                Nat.pow_le_pow_right (by omega) hd.2
              omega
            · have hb := digitosParaNat_lt
                ((s3.dropWhile isWs).takeWhile isDigit)
                (fun x hx => List.mem_takeWhile_imp hx)
              have : (10 : Nat) ^
                  ((s3.dropWhile isWs).takeWhile isDigit).length ≤ 10 ^ 2 :=
                Nat.pow_le_pow_right (by omega) hm.2
              omega
            · have hb := digitosParaNat_lt
                ((s6.dropWhile isWs).takeWhile isDigit)
                (fun x hx => List.mem_takeWhile_imp hx)
              have : (10 : Nat) ^
                  ((s6.dropWhile isWs).takeWhile isDigit).length ≤ 10 ^ 4 :=
                Nat.pow_le_pow_right (by omega) ha.2.1
              omega

/-- Specification of the exact-digit reader. -/
theorem tomarDigitosExatos_spec :
    ∀ (n : Nat) (s g r : List Nat), tomarDigitosExatos n s = some (g, r) →
      g.length = n ∧ (∀ x ∈ g, isDigit x = true) ∧ s = g ++ r := by
  intro n
  induction n with
  | zero =>
    intro s g r h
    unfold tomarDigitosExatos at h
    injection h with h
    injection h with h1 h2
    subst h1
    subst h2
    simp
  | succ n ih =>
    intro s g r h
    cases s with
    | nil => cases h
    | cons c t =>
      simp only [tomarDigitosExatos] at h
      split at h
      case isFalse => cases h
      case isTrue hc =>
        cases ht : tomarDigitosExatos n t with
        | none => rw [ht] at h; cases h
        | some p =>
          rw [ht] at h
          obtain ⟨g', r'⟩ := p
          simp only [Option.map_some', Option.some.injEq, Prod.mk.injEq] at h
          obtain ⟨rfl, rfl⟩ := h
          obtain ⟨hl, hd, hs⟩ := ih t g' r' ht
          refine ⟨by simp [hl], ?_, by simp [hs]⟩
          intro x hx
          rcases List.mem_cons.mp hx with rfl | hx
          · exact hc
          · exact hd x hx

/-- The exact-digit reader succeeds on a digit block followed by anything. -/
theorem tomarDigitosExatos_app :
    ∀ (g r : List Nat), (∀ x ∈ g, isDigit x = true) →
      tomarDigitosExatos g.length (g ++ r) = some (g, r) := by
  intro g
  induction g with
  | nil => intro r _; rfl
  | cons c t ih =>
    intro r h
    simp only [List.length_cons, List.cons_append, tomarDigitosExatos,
      if_pos (h c (by simp))]
    rw [show t.append r = t ++ r from rfl,
      ih r (fun x hx => h x (by simp [hx]))]
    rfl

/-- Specification of the exact-hex reader. -/
theorem tomarHexExatos_spec :
    ∀ (n : Nat) (s g r : List Nat), tomarHexExatos n s = some (g, r) →
      g.length = n ∧ (∀ x ∈ g, isHexM x = true) ∧ s = g ++ r := by
  intro n
  induction n with
  | zero =>
    intro s g r h
    unfold tomarHexExatos at h
    injection h with h
    injection h with h1 h2
    subst h1
    subst h2
    simp
  | succ n ih =>
    intro s g r h
    cases s with
    | nil => cases h
    | cons c t =>
      simp only [tomarHexExatos] at h
      split at h
      case isFalse => cases h
      case isTrue hc =>
        cases ht : tomarHexExatos n t with
        | none => rw [ht] at h; cases h
        | some p =>
          rw [ht] at h
          obtain ⟨g', r'⟩ := p
          simp only [Option.map_some', Option.some.injEq, Prod.mk.injEq] at h
          obtain ⟨rfl, rfl⟩ := h
          obtain ⟨hl, hd, hs⟩ := ih t g' r' ht
          refine ⟨by simp [hl], ?_, by simp [hs]⟩
          intro x hx
          rcases List.mem_cons.mp hx with rfl | hx
          · exact hc
          · exact hd x hx

/-- The exact-hex reader succeeds on a hex block followed by anything. -/
theorem tomarHexExatos_app :
    ∀ (g r : List Nat), (∀ x ∈ g, isHexM x = true) →
      tomarHexExatos g.length (g ++ r) = some (g, r) := by
  intro g
  induction g with
  | nil => intro r _; rfl
  | cons c t ih =>
    intro r h
    simp only [List.length_cons, List.cons_append, tomarHexExatos,
      if_pos (h c (by simp))]
    rw [show t.append r = t ++ r from rfl,
      ih r (fun x hx => h x (by simp [hx]))]
    rfl

/-- The output shape of `data_re2`: day and month below 100 and year below
10000. -/
theorem data_re2_forma (s c : List Nat) (h : data_re2 s = some c) :
    ∃ d m a, d < 100 ∧ m < 100 ∧ a ≤ 9999 ∧ c = formatar_data d m a := by
  unfold data_re2 at h
  cases hp1 : tomarDigitosExatos 2 (s.dropWhile isWs) with
  | none => simp [hp1] at h
  | some p1 =>
    obtain ⟨g1, r1⟩ := p1
    simp only [hp1, Option.bind_eq_bind, Option.some_bind] at h
    cases hp2 : tomarDigitosExatos 2 (r1.dropWhile isWs) with
    | none => simp [hp2] at h
    | some p2 =>
      obtain ⟨g2, r2⟩ := p2
      simp only [hp2, Option.some_bind] at h
      cases hp3 : tomarDigitosExatos 4 (r2.dropWhile isWs) with
      | none => simp [hp3] at h
      | some p3 =>
        obtain ⟨g3, r3⟩ := p3
        simp only [hp3, Option.some_bind] at h
        split at h
        case isFalse => cases h
        case isTrue hws =>
          injection h with h
          obtain ⟨hl1, hd1, _⟩ := tomarDigitosExatos_spec _ _ _ _ hp1
          obtain ⟨hl2, hd2, _⟩ := tomarDigitosExatos_spec _ _ _ _ hp2
          obtain ⟨hl3, hd3, _⟩ := tomarDigitosExatos_spec _ _ _ _ hp3
          refine ⟨_, _, _, ?_, ?_, ?_, h.symm⟩
          · have := digitosParaNat_lt g1 hd1
            rw [hl1] at this
            omega
          · have := digitosParaNat_lt g2 hd2
            rw [hl2] at this
            omega
          · have := digitosParaNat_lt g3 hd3
            rw [hl3] at this
            omega

/-- The output shape of `processar_data`. -/
theorem processar_data_forma (s c : List Nat)
    (h : processar_data s = some c) :
    ∃ d m a, d < 100 ∧ m < 100 ∧ a ≤ 9999 ∧ c = formatar_data d m a := by
  unfold processar_data at h
  split at h
  case h_1 r hr =>
    injection h with h
    subst h
    exact data_re1_forma s r hr
  case h_2 => exact data_re2_forma s c h

/-- `data_re1` accepts a canonical digits/slash/digits/slash/digits string
and re-captures the three digit blocks. -/
theorem data_re1_app (P Q R : List Nat)
    (hP : ∀ x ∈ P, isDigit x = true) (hQ : ∀ x ∈ Q, isDigit x = true)
    (hR : ∀ x ∈ R, isDigit x = true)
    (hPl1 : 1 ≤ P.length) (hPl2 : P.length ≤ 2)
    (hQl1 : 1 ≤ Q.length) (hQl2 : Q.length ≤ 2)
    (hRl1 : 1 ≤ R.length) (hRl2 : R.length ≤ 4) :
    data_re1 (P ++ 47 :: (Q ++ 47 :: R)) =
      some (formatar_data (digitosParaNat P) (digitosParaNat Q)
        (digitosParaNat R)) := by
  have hnw : ∀ x ∈ P ++ 47 :: (Q ++ 47 :: R), isWs x = false := by
    intro x hx
    simp only [List.mem_append, List.mem_cons] at hx
    rcases hx with hx | rfl | hx | rfl | hx
    · exact isDigit_nao_isWs (hP x hx)
    · decide
    · exact isDigit_nao_isWs (hQ x hx)
    · decide
    · exact isDigit_nao_isWs (hR x hx)
  have e2 : List.takeWhile isDigit (P ++ 47 :: (Q ++ 47 :: R)) = P := by
    rw [takeWhile_app P _ hP, List.takeWhile_cons, if_neg (by decide)]
    simp
  have e3 : List.dropWhile isDigit (P ++ 47 :: (Q ++ 47 :: R)) =
      47 :: (Q ++ 47 :: R) := by
    rw [dropWhile_app P _ hP, List.dropWhile_cons, if_neg (by decide)]
  have e4 : List.dropWhile isWs (47 :: (Q ++ 47 :: R)) =
      47 :: (Q ++ 47 :: R) := by
    rw [List.dropWhile_cons, if_neg (by decide)]
  simp only [data_re1]
  rw [dropWhile_nenhum hnw, e2, e3, e4, if_pos ⟨hPl1, hPl2⟩]
  have e5 : List.dropWhile isWs (Q ++ 47 :: R) = Q ++ 47 :: R :=
    dropWhile_nenhum (fun x hx => hnw x (by simp [hx]))
  have e6 : List.takeWhile isDigit (Q ++ 47 :: R) = Q := by
    rw [takeWhile_app Q _ hQ, List.takeWhile_cons, if_neg (by decide)]
    simp
  have e7 : List.dropWhile isDigit (Q ++ 47 :: R) = 47 :: R := by
    rw [dropWhile_app Q _ hQ, List.dropWhile_cons, if_neg (by decide)]
  have e8 : List.dropWhile isWs (47 :: R) = 47 :: R := by
    rw [List.dropWhile_cons, if_neg (by decide)]
  split
  case h_2 hno => exact (hno (Q ++ 47 :: R) rfl).elim
  case h_1 s3 heq =>
    injection heq with _ heq
    subst heq
    rw [e5, e6, e7, e8, if_pos ⟨hQl1, hQl2⟩]
    split
    case h_2 hno => exact (hno R rfl).elim
    case h_1 s6 heq2 =>
      injection heq2 with _ heq2
      subst heq2
      rw [dropWhile_nenhum (fun x hx => isDigit_nao_isWs (hR x hx)),
        takeWhile_tudo hR, dropWhile_tudo hR,
        if_pos ⟨hRl1, hRl2, by decide⟩]

/-- `processar_data` is idempotent: a formatted date re-validates (through
the first pattern) to itself. -/
theorem processar_data_idem (s c : List Nat)
    (h : processar_data s = some c) : processar_data c = some c := by
  obtain ⟨d, m, a, hd, hm, ha, rfl⟩ := processar_data_forma s c h
  obtain ⟨pdD, pdV, pdNe, pdL⟩ := pad2_spec d hd
  obtain ⟨pmD, pmV, pmNe, pmL⟩ := pad2_spec m hm
  have ha2 : 1000 ≤ (if a < 1000 then 2000 + a else a) ∧
      (if a < 1000 then 2000 + a else a) ≤ 9999 := by
    split <;> omega
  obtain ⟨naD, naV, naNe⟩ := natParaDigitos_spec (if a < 1000 then 2000 + a
    else a)
  have naL : (natParaDigitos (if a < 1000 then 2000 + a else a)).length ≤ 4 :=
    natParaDigitosAux_len _ 3 _ (by omega)
  have hshape : formatar_data d m a =
      pad2 d ++ 47 :: (pad2 m ++ 47 :: natParaDigitos
        (if a < 1000 then 2000 + a else a)) := by
    simp [formatar_data]
  have hre1 := data_re1_app (pad2 d) (pad2 m)
    (natParaDigitos (if a < 1000 then 2000 + a else a)) pdD pmD naD
    (by cases hp : pad2 d with
      | nil => exact absurd hp pdNe
      | cons x t => simp [hp]) pdL
    (by cases hp : pad2 m with
      | nil => exact absurd hp pmNe
      | cons x t => simp [hp]) pmL
    (by cases hp : natParaDigitos (if a < 1000 then 2000 + a else a) with
      | nil => exact absurd hp naNe
      | cons x t => simp [hp]) naL
  rw [pdV, pmV, naV] at hre1
  have hfim : formatar_data d m (if a < 1000 then 2000 + a else a) =
      formatar_data d m a := by
    unfold formatar_data
    rw [if_neg (by omega)]
  unfold processar_data
  rw [hshape, hre1, hfim, ← hshape]

/-- The output shape of `processar_hora`: two values below 100. -/
theorem processar_hora_forma (s c : List Nat)
    (h : processar_hora s = some c) :
    ∃ hh mm, hh < 100 ∧ mm < 100 ∧ c = pad2 hh ++ [58] ++ pad2 mm := by
  simp only [processar_hora] at h
  split at h
  case isFalse => cases h
  case isTrue hhl =>
    split at h
    case h_2 => cases h
    case h_1 s3 heq3 =>
      split at h
      case isFalse => cases h
      case isTrue hml =>
        injection h with h
        refine ⟨_, _, ?_, ?_, h.symm⟩
        · have hb := digitosParaNat_lt
            ((s.dropWhile isWs).takeWhile isDigit)
            (fun x hx => List.mem_takeWhile_imp hx)
          have : (10 : Nat) ^
              ((s.dropWhile isWs).takeWhile isDigit).length ≤ 10 ^ 2 :=
            Nat.pow_le_pow_right (by omega) hhl.2
          omega
        · have hb := digitosParaNat_lt
            ((s3.dropWhile isWs).takeWhile isDigit)
            (fun x hx => List.mem_takeWhile_imp hx)
          have : (10 : Nat) ^
              ((s3.dropWhile isWs).takeWhile isDigit).length ≤ 10 ^ 2 :=
            Nat.pow_le_pow_right (by omega) hml.2.1
          omega

/-- `processar_hora` accepts a canonical digits/colon/digits string. -/
theorem processar_hora_app (P Q : List Nat)
    (hP : ∀ x ∈ P, isDigit x = true) (hQ : ∀ x ∈ Q, isDigit x = true)
    (hPl1 : 1 ≤ P.length) (hPl2 : P.length ≤ 2)
    (hQl1 : 1 ≤ Q.length) (hQl2 : Q.length ≤ 2) :
    processar_hora (P ++ 58 :: Q) =
      some (pad2 (digitosParaNat P) ++ [58] ++ pad2 (digitosParaNat Q)) := by
  have hnw : ∀ x ∈ P ++ 58 :: Q, isWs x = false := by
    intro x hx
    simp only [List.mem_append, List.mem_cons] at hx
    rcases hx with hx | rfl | hx
    · exact isDigit_nao_isWs (hP x hx)
    · decide
    · exact isDigit_nao_isWs (hQ x hx)
  have e2 : List.takeWhile isDigit (P ++ 58 :: Q) = P := by
    rw [takeWhile_app P _ hP, List.takeWhile_cons, if_neg (by decide)]
    simp
  have e3 : List.dropWhile isDigit (P ++ 58 :: Q) = 58 :: Q := by
    rw [dropWhile_app P _ hP, List.dropWhile_cons, if_neg (by decide)]
  have e4 : List.dropWhile isWs (58 :: Q) = 58 :: Q := by
    rw [List.dropWhile_cons, if_neg (by decide)]
  simp only [processar_hora]
  rw [dropWhile_nenhum hnw, e2, e3, e4, if_pos ⟨hPl1, hPl2⟩]
  split
  case h_2 hno => exact (hno Q rfl).elim
  case h_1 s3 heq =>
    injection heq with _ heq
    subst heq
    rw [dropWhile_nenhum (fun x hx => isDigit_nao_isWs (hQ x hx)),
      takeWhile_tudo hQ, dropWhile_tudo hQ,
      if_pos ⟨hQl1, hQl2, by decide⟩]

/-- `processar_hora` is idempotent. -/
theorem processar_hora_idem (s c : List Nat)
    (h : processar_hora s = some c) : processar_hora c = some c := by
  obtain ⟨hh, mm, hhb, hmb, rfl⟩ := processar_hora_forma s c h
  obtain ⟨phD, phV, phNe, phL⟩ := pad2_spec hh hhb
  obtain ⟨pmD, pmV, pmNe, pmL⟩ := pad2_spec mm hmb
  have hshape : pad2 hh ++ [58] ++ pad2 mm = pad2 hh ++ 58 :: pad2 mm := by
    simp
  have happ := processar_hora_app (pad2 hh) (pad2 mm) phD pmD
    (by cases hp : pad2 hh with
      | nil => exact absurd hp phNe
      | cons x t => simp [hp]) phL
    (by cases hp : pad2 mm with
      | nil => exact absurd hp pmNe
      | cons x t => simp [hp]) pmL
  rw [phV, pmV] at happ
  rw [hshape, happ]
  exact congrArg some hshape

/-- Captures of one continuation group are four hex characters. -/
theorem grupoSeguinte_spec (s g r : List Nat)
    (h : grupoSeguinte s = some (g, r)) :
    g.length = 4 ∧ ∀ x ∈ g, isHexM x = true := by
  unfold grupoSeguinte at h
  split at h
  case h_2 => cases h
  case h_1 t heq =>
    obtain ⟨hl, hx, _⟩ := tomarHexExatos_spec _ _ _ _ h
    exact ⟨hl, hx⟩

/-- A continuation group parses from a dot followed by four hex characters,
in a whitespace-free context. -/
theorem grupoSeguinte_app (g r : List Nat)
    (hg : ∀ x ∈ g, isHexM x = true) (hl : g.length = 4)
    (hnw : ∀ x ∈ g ++ r, isWs x = false) :
    grupoSeguinte (46 :: (g ++ r)) = some (g, r) := by
  unfold grupoSeguinte
  rw [List.dropWhile_cons, if_neg (by decide)]
  show tomarHexExatos 4 ((g ++ r).dropWhile isWs) = some (g, r)
  rw [dropWhile_nenhum hnw, ← hl, tomarHexExatos_app g r hg]

/-- Tail restriction of an all-false predicate over an append. -/
theorem todos_cauda_append {α : Type} {p : α → Bool} {a b : List α}
    (h : ∀ x ∈ a ++ b, p x = false) : ∀ x ∈ b, p x = false :=
  fun x hx => h x (List.mem_append_right a hx)

/-- Tail restriction of an all-false predicate over a cons. -/
theorem todos_cauda_cons {α : Type} {p : α → Bool} {c : α} {b : List α}
    (h : ∀ x ∈ c :: b, p x = false) : ∀ x ∈ b, p x = false :=
  fun x hx => h x (List.mem_cons_of_mem c hx)

/-- The output shape of `processar_codigo`: eight dot-separated four-hex
groups. -/
theorem processar_codigo_forma (s c : List Nat)
    (h : processar_codigo s = some c) :
    ∃ g1 g2 g3 g4 g5 g6 g7 g8 : List Nat,
      (g1.length = 4 ∧ ∀ x ∈ g1, isHexM x = true) ∧
      (g2.length = 4 ∧ ∀ x ∈ g2, isHexM x = true) ∧
      (g3.length = 4 ∧ ∀ x ∈ g3, isHexM x = true) ∧
      (g4.length = 4 ∧ ∀ x ∈ g4, isHexM x = true) ∧
      (g5.length = 4 ∧ ∀ x ∈ g5, isHexM x = true) ∧
      (g6.length = 4 ∧ ∀ x ∈ g6, isHexM x = true) ∧
      (g7.length = 4 ∧ ∀ x ∈ g7, isHexM x = true) ∧
      (g8.length = 4 ∧ ∀ x ∈ g8, isHexM x = true) ∧
      c = g1 ++ 46 :: g2 ++ 46 :: g3 ++ 46 :: g4 ++ 46 :: g5 ++ 46 :: g6 ++
        46 :: g7 ++ 46 :: g8 := by
  unfold processar_codigo at h
  cases hp1 : tomarHexExatos 4 (s.dropWhile isWs) with
  | none => simp [hp1] at h
  | some p1 =>
  obtain ⟨g1, r1⟩ := p1
  simp only [hp1, Option.bind_eq_bind, Option.some_bind] at h
  cases hp2 : grupoSeguinte r1 with
  | none => simp [hp2] at h
  | some p2 =>
  obtain ⟨g2, r2⟩ := p2
  simp only [hp2, Option.some_bind] at h
  cases hp3 : grupoSeguinte r2 with
  | none => simp [hp3] at h
  | some p3 =>
  obtain ⟨g3, r3⟩ := p3
  simp only [hp3, Option.some_bind] at h
  cases hp4 : grupoSeguinte r3 with
  | none => simp [hp4] at h
  | some p4 =>
  obtain ⟨g4, r4⟩ := p4
  simp only [hp4, Option.some_bind] at h
  cases hp5 : grupoSeguinte r4 with
  | none => simp [hp5] at h
  | some p5 =>
  obtain ⟨g5, r5⟩ := p5
  simp only [hp5, Option.some_bind] at h
  cases hp6 : grupoSeguinte r5 with
  | none => simp [hp6] at h
  | some p6 =>
  obtain ⟨g6, r6⟩ := p6
  simp only [hp6, Option.some_bind] at h
  cases hp7 : grupoSeguinte r6 with
  | none => simp [hp7] at h
  | some p7 =>
  obtain ⟨g7, r7⟩ := p7
  simp only [hp7, Option.some_bind] at h
  cases hp8 : grupoSeguinte r7 with
  | none => simp [hp8] at h
  | some p8 =>
  obtain ⟨g8, r8⟩ := p8
  simp only [hp8, Option.some_bind] at h
  split at h
  case isFalse => cases h
  case isTrue hws =>
  injection h with h
  obtain ⟨hl1, hx1, _⟩ := tomarHexExatos_spec _ _ _ _ hp1
  refine ⟨g1, g2, g3, g4, g5, g6, g7, g8, ⟨hl1, hx1⟩,
    grupoSeguinte_spec _ _ _ hp2, grupoSeguinte_spec _ _ _ hp3,
    grupoSeguinte_spec _ _ _ hp4, grupoSeguinte_spec _ _ _ hp5,
    grupoSeguinte_spec _ _ _ hp6, grupoSeguinte_spec _ _ _ hp7,
    grupoSeguinte_spec _ _ _ hp8, h.symm⟩

/-- `processar_codigo` accepts a canonical eight-group code and returns it
unchanged. -/
theorem processar_codigo_app (g1 g2 g3 g4 g5 g6 g7 g8 : List Nat)
    (h1 : g1.length = 4 ∧ ∀ x ∈ g1, isHexM x = true)
    (h2 : g2.length = 4 ∧ ∀ x ∈ g2, isHexM x = true)
    (h3 : g3.length = 4 ∧ ∀ x ∈ g3, isHexM x = true)
    (h4 : g4.length = 4 ∧ ∀ x ∈ g4, isHexM x = true)
    (h5 : g5.length = 4 ∧ ∀ x ∈ g5, isHexM x = true)
    (h6 : g6.length = 4 ∧ ∀ x ∈ g6, isHexM x = true)
    (h7 : g7.length = 4 ∧ ∀ x ∈ g7, isHexM x = true)
    (h8 : g8.length = 4 ∧ ∀ x ∈ g8, isHexM x = true) :
    processar_codigo (g1 ++ 46 :: (g2 ++ 46 :: (g3 ++ 46 :: (g4 ++ 46 ::
        (g5 ++ 46 :: (g6 ++ 46 :: (g7 ++ 46 :: g8))))))) =
      some (g1 ++ 46 :: (g2 ++ 46 :: (g3 ++ 46 :: (g4 ++ 46 :: (g5 ++ 46 ::
        (g6 ++ 46 :: (g7 ++ 46 :: g8))))))) := by
  have w0 : ∀ x ∈ g1 ++ 46 :: (g2 ++ 46 :: (g3 ++ 46 :: (g4 ++ 46 ::
      (g5 ++ 46 :: (g6 ++ 46 :: (g7 ++ 46 :: g8)))))), isWs x = false := by
    intro x hx
    simp only [List.mem_append, List.mem_cons] at hx
    rcases hx with hx | rfl | hx | rfl | hx | rfl | hx | rfl | hx | rfl |
      hx | rfl | hx | rfl | hx
    all_goals
      first
        | decide
        | exact isHexM_nao_isWs (h1.2 x hx)
        | exact isHexM_nao_isWs (h2.2 x hx)
        | exact isHexM_nao_isWs (h3.2 x hx)
        | exact isHexM_nao_isWs (h4.2 x hx)
        | exact isHexM_nao_isWs (h5.2 x hx)
        | exact isHexM_nao_isWs (h6.2 x hx)
        | exact isHexM_nao_isWs (h7.2 x hx)
        | exact isHexM_nao_isWs (h8.2 x hx)
  have w2 := todos_cauda_cons (todos_cauda_append w0)
  have w3 := todos_cauda_cons (todos_cauda_append w2)
  have w4 := todos_cauda_cons (todos_cauda_append w3)
  have w5 := todos_cauda_cons (todos_cauda_append w4)
  have w6 := todos_cauda_cons (todos_cauda_append w5)
  have w7 := todos_cauda_cons (todos_cauda_append w6)
  have w8 := todos_cauda_cons (todos_cauda_append w7)
  have t1 : tomarHexExatos 4 (g1 ++ 46 :: (g2 ++ 46 :: (g3 ++ 46 ::
      (g4 ++ 46 :: (g5 ++ 46 :: (g6 ++ 46 :: (g7 ++ 46 :: g8))))))) =
      some (g1, 46 :: (g2 ++ 46 :: (g3 ++ 46 :: (g4 ++ 46 :: (g5 ++ 46 ::
        (g6 ++ 46 :: (g7 ++ 46 :: g8))))))) := by
    rw [← h1.1]
    exact tomarHexExatos_app g1 _ h1.2
  have t2 : grupoSeguinte (46 :: (g2 ++ 46 :: (g3 ++ 46 :: (g4 ++ 46 ::
      (g5 ++ 46 :: (g6 ++ 46 :: (g7 ++ 46 :: g8))))))) =
      some (g2, 46 :: (g3 ++ 46 :: (g4 ++ 46 :: (g5 ++ 46 :: (g6 ++ 46 ::
        (g7 ++ 46 :: g8)))))) :=
    grupoSeguinte_app g2 _ h2.2 h2.1 w2
  have t3 : grupoSeguinte (46 :: (g3 ++ 46 :: (g4 ++ 46 :: (g5 ++ 46 ::
      (g6 ++ 46 :: (g7 ++ 46 :: g8)))))) =
      some (g3, 46 :: (g4 ++ 46 :: (g5 ++ 46 :: (g6 ++ 46 ::
        (g7 ++ 46 :: g8))))) :=
    grupoSeguinte_app g3 _ h3.2 h3.1 w3
  have t4 : grupoSeguinte (46 :: (g4 ++ 46 :: (g5 ++ 46 :: (g6 ++ 46 ::
      (g7 ++ 46 :: g8))))) =
      some (g4, 46 :: (g5 ++ 46 :: (g6 ++ 46 :: (g7 ++ 46 :: g8)))) :=
    grupoSeguinte_app g4 _ h4.2 h4.1 w4
  have t5 : grupoSeguinte (46 :: (g5 ++ 46 :: (g6 ++ 46 ::
      (g7 ++ 46 :: g8)))) =
      some (g5, 46 :: (g6 ++ 46 :: (g7 ++ 46 :: g8))) :=
    grupoSeguinte_app g5 _ h5.2 h5.1 w5
  have t6 : grupoSeguinte (46 :: (g6 ++ 46 :: (g7 ++ 46 :: g8))) =
      some (g6, 46 :: (g7 ++ 46 :: g8)) :=
    grupoSeguinte_app g6 _ h6.2 h6.1 w6
  have t7 : grupoSeguinte (46 :: (g7 ++ 46 :: g8)) = some (g7, 46 :: g8) :=
    grupoSeguinte_app g7 _ h7.2 h7.1 w7
  have t8 : grupoSeguinte (46 :: g8) = some (g8, []) := by
    have := grupoSeguinte_app g8 [] h8.2 h8.1 (by simpa using w8)
    simpa using this
  unfold processar_codigo
  rw [dropWhile_nenhum w0]
  simp only [Option.bind_eq_bind, t1, Option.some_bind, t2, t3, t4, t5, t6,
    t7, t8]
  simp [List.append_assoc]

/-- `processar_codigo` is idempotent. -/
theorem processar_codigo_idem (s c : List Nat)
    (h : processar_codigo s = some c) : processar_codigo c = some c := by
  obtain ⟨g1, g2, g3, g4, g5, g6, g7, g8, h1, h2, h3, h4, h5, h6, h7, h8,
    rfl⟩ := processar_codigo_forma s c h
  have e : g1 ++ 46 :: g2 ++ 46 :: g3 ++ 46 :: g4 ++ 46 :: g5 ++ 46 :: g6 ++
      46 :: g7 ++ 46 :: g8 =
      g1 ++ 46 :: (g2 ++ 46 :: (g3 ++ 46 :: (g4 ++ 46 :: (g5 ++ 46 ::
        (g6 ++ 46 :: (g7 ++ 46 :: g8)))))) := by
    simp [List.append_assoc]
  rw [e, processar_codigo_app g1 g2 g3 g4 g5 g6 g7 g8 h1 h2 h3 h4 h5 h6 h7
    h8]

/-- ASCII lowercasing is idempotent. -/
theorem toLowerA_idem (c : Nat) : toLowerA (toLowerA c) = toLowerA c := by
  have inner : toLowerA c = if 65 ≤ c ∧ c ≤ 90 then c + 32 else c := rfl
  by_cases h : 65 ≤ c ∧ c ≤ 90
  · rw [inner, if_pos h]
    unfold toLowerA
    rw [if_neg (by omega)]
  · rw [inner, if_neg h]
    unfold toLowerA
    rw [if_neg h]

/-- ASCII lowercasing never produces the `@` scalar from another scalar. -/
theorem toLowerA_nao_arroba {c : Nat} (h : c ≠ 64) : toLowerA c ≠ 64 := by
  intro hc
  unfold toLowerA at hc
  by_cases h9 : 65 ≤ c ∧ c ≤ 90
  · rw [if_pos h9] at hc
    omega
  · rw [if_neg h9] at hc
    exact h hc

/-- ASCII lowercasing preserves the whitespace class. -/
theorem toLowerA_ws (c : Nat) : isWs (toLowerA c) = isWs c := by
  unfold toLowerA
  by_cases h9 : 65 ≤ c ∧ c ≤ 90
  · have h1 : isWs (c + 32) = false := by
      simp [isWs]
      omega
    have h2 : isWs c = false := by
      simp [isWs]
      omega
    rw [if_pos h9, h1, h2]
  · rw [if_neg h9]

/-- Characterization of a successful `@`-split. -/
theorem quebrarArroba_spec :
    ∀ (s l d : List Nat), quebrarArroba s = some (l, d) →
      s = l ++ 64 :: d ∧ ¬ 64 ∈ l ∧ ¬ 64 ∈ d := by
  intro s
  induction s with
  | nil => intro l d h; cases h
  | cons c t ih =>
    intro l d h
    simp only [quebrarArroba] at h
    by_cases hc : c = 64
    · rw [if_pos hc] at h
      split at h
      next => cases h
      next hd =>
        injection h with h
        injection h with h1 h2
        subst h1
        subst h2
        subst hc
        exact ⟨by simp, by simp, hd⟩
    · rw [if_neg hc] at h
      cases hq : quebrarArroba t with
      | none => rw [hq] at h; cases h
      | some p =>
        rw [hq] at h
        obtain ⟨l', d'⟩ := p
        simp only [Option.map_some', Option.some.injEq, Prod.mk.injEq] at h
        obtain ⟨rfl, rfl⟩ := h
        obtain ⟨hs, hl, hd⟩ := ih l' d' hq
        refine ⟨by simp [hs], ?_, hd⟩
        simp only [List.mem_cons]
        rintro (h64 | h64)
        · exact hc h64.symm
        · exact hl h64

/-- An `@`-free local part and domain re-split at the `@`. -/
theorem quebrarArroba_app :
    ∀ (l d : List Nat), ¬ 64 ∈ l → ¬ 64 ∈ d →
      quebrarArroba (l ++ 64 :: d) = some (l, d) := by
  intro l
  induction l with
  | nil =>
    intro d _ hd
    rw [List.nil_append]
    simp only [quebrarArroba]
    rw [if_pos trivial, if_neg hd]
  | cons c t ih =>
    intro d hl hd
    have hc : c ≠ 64 := by
      intro hc
      exact hl (by simp [hc])
    have ht : ¬ 64 ∈ t := fun hm => hl (by simp [hm])
    rw [List.cons_append]
    simp only [quebrarArroba]
    rw [if_neg hc, ih d ht hd]
    rfl

/-- `parseMailbox` accepts a well-formed rebuilt address. -/
theorem parseMailbox_app (l d : List Nat) (hlne : l ≠ []) (hdne : d ≠ [])
    (hl64 : ¬ 64 ∈ l) (hd64 : ¬ 64 ∈ d)
    (hlws : l.all (fun x => !isWs x) = true)
    (hdws : d.all (fun x => !isWs x) = true) :
    parseMailbox (l ++ 64 :: d) = some (l, d) := by
  unfold parseMailbox
  rw [quebrarArroba_app l d hl64 hd64]
  simp only [Option.bind_eq_bind, Option.some_bind]
  rw [if_pos ⟨hlne, hdne, hlws, hdws⟩]

/-- Properties guaranteed by a successful mailbox parse. -/
theorem parseMailbox_spec (s l d : List Nat)
    (h : parseMailbox s = some (l, d)) :
    l ≠ [] ∧ d ≠ [] ∧ ¬ 64 ∈ l ∧ ¬ 64 ∈ d ∧
    l.all (fun x => !isWs x) = true ∧ d.all (fun x => !isWs x) = true := by
  unfold parseMailbox at h
  cases hq : quebrarArroba s with
  | none => rw [hq] at h; cases h
  | some q =>
    rw [hq] at h
    obtain ⟨l1, d1⟩ := q
    simp only [Option.bind_eq_bind, Option.some_bind] at h
    split at h
    next hval =>
      injection h with h
      injection h with h1 h2
      subst h1
      subst h2
      obtain ⟨_, h64l, h64d⟩ := quebrarArroba_spec _ _ _ hq
      exact ⟨hval.1, hval.2.1, h64l, h64d, hval.2.2.1, hval.2.2.2⟩
    next => cases h

/-- The output shape of `processar_email`: a local part, the `@`, and an
already-lowercased domain, all free of `@` and whitespace. -/
theorem processar_email_forma (s c : List Nat)
    (h : processar_email s = some c) :
    ∃ l d : List Nat, l ≠ [] ∧ d ≠ [] ∧ ¬ 64 ∈ l ∧ ¬ 64 ∈ d ∧
      l.all (fun x => !isWs x) = true ∧ d.all (fun x => !isWs x) = true ∧
      d.map toLowerA = d ∧ c = l ++ 64 :: d := by
  unfold processar_email at h
  cases hp : parseMailbox (aparar s) with
  | none => simp [hp] at h
  | some p =>
    obtain ⟨l0, d0⟩ := p
    simp only [hp, Option.bind_eq_bind, Option.some_bind] at h
    obtain ⟨hl0ne, hd0ne, hl064, hd064, hl0ws, hd0ws⟩ :=
      parseMailbox_spec _ _ _ hp
    have hd64m : ¬ 64 ∈ d0.map toLowerA := by
      intro hm
      rcases List.mem_map.mp hm with ⟨y, hy, hxy⟩
      exact toLowerA_nao_arroba (fun he => hd064 (he ▸ hy)) hxy
    have hdwsm : (d0.map toLowerA).all (fun x => !isWs x) = true := by
      rw [List.all_eq_true]
      intro x hx
      rcases List.mem_map.mp hx with ⟨y, hy, rfl⟩
      have hyw := List.all_eq_true.mp hd0ws y hy
      rw [Bool.not_eq_eq_eq_not] at hyw ⊢
      rw [toLowerA_ws]
      exact hyw
    have hdnem : d0.map toLowerA ≠ [] := by
      simp only [ne_eq, List.map_eq_nil_iff]
      exact hd0ne
    have hp2 : parseMailbox (l0 ++ 64 :: d0.map toLowerA) =
        some (l0, d0.map toLowerA) :=
      parseMailbox_app l0 _ hl0ne hdnem hl064 hd64m hl0ws hdwsm
    rw [hp2] at h
    simp only [Option.some_bind] at h
    injection h with h
    refine ⟨l0, d0.map toLowerA, hl0ne, hdnem, hl064, hd64m, hl0ws, hdwsm,
      ?_, h.symm⟩
    rw [List.map_map]
    apply List.map_congr_left
    intro a _
    exact toLowerA_idem a

/-- `processar_email` is idempotent. -/
theorem processar_email_idem (s c : List Nat)
    (h : processar_email s = some c) : processar_email c = some c := by
  obtain ⟨l, d, hlne, hdne, hl64, hd64, hlws, hdws, hdmap, rfl⟩ :=
    processar_email_forma s c h
  have hnw : ∀ x ∈ l ++ 64 :: d, isWs x = false := by
    intro x hx
    rcases List.mem_append.mp hx with hx | hx
    · have := List.all_eq_true.mp hlws x hx
      simpa using this
    · rcases List.mem_cons.mp hx with rfl | hx
      · decide
      · have := List.all_eq_true.mp hdws x hx
        simpa using this
  have hap : aparar (l ++ 64 :: d) = l ++ 64 :: d := by
    unfold aparar
    rw [dropWhile_nenhum hnw]
    rw [dropWhile_nenhum (fun x hx => hnw x (List.mem_reverse.mp hx))]
    rw [List.reverse_reverse]
  unfold processar_email
  rw [hap, parseMailbox_app l d hlne hdne hl64 hd64 hlws hdws]
  simp only [Option.bind_eq_bind, Option.some_bind]
  rw [hdmap, parseMailbox_app l d hlne hdne hl64 hd64 hlws hdws]
  simp only [Option.some_bind]

/-- ASCII lowercasing of an ASCII-uppercased scalar equals plain ASCII
lowercasing. -/
theorem toLowerA_toUpperA (c : Nat) : toLowerA (toUpperA c) = toLowerA c := by
  unfold toUpperA
  by_cases h : 97 ≤ c ∧ c ≤ 122
  · rw [if_pos h]
    unfold toLowerA
    rw [if_pos (by omega), if_neg (by omega)]
    omega
  · rw [if_neg h]

/-- ASCII uppercasing preserves the whitespace class. -/
theorem toUpperA_ws (c : Nat) : isWs (toUpperA c) = isWs c := by
  unfold toUpperA
  by_cases h : 97 ≤ c ∧ c ≤ 122
  · rw [if_pos h]
    have h1 : isWs (c - 32) = false := by
      simp [isWs]
      omega
    have h2 : isWs c = false := by
      simp [isWs]
      omega
    rw [h1, h2]
  · rw [if_neg h]

/-- Unicode lowercasing is idempotent on the modelled alphabet. -/
theorem CharU.toLower_toLower (ch : CharU) : ch.toLower.toLower = ch.toLower := by
  cases ch <;> simp [CharU.toLower, toLowerA_idem]

/-- Lowercasing an uppercased character equals lowercasing it directly. -/
theorem CharU.toLower_toUpper (ch : CharU) : ch.toUpper.toLower = ch.toLower := by
  cases ch <;> simp [CharU.toLower, CharU.toUpper, toLowerA_toUpperA]

/-- The sanitized scalars of a character are unchanged by lowercasing it. -/
theorem sanChar_toLower (ch : CharU) : sanChar ch.toLower = sanChar ch := by
  cases ch <;>
    simp [sanChar, CharU.toLower, CharU.substCedilha, CharU.nfdAscii,
      toLowerA_idem]

/-- The sanitized scalars of a character are unchanged by uppercasing it. -/
theorem sanChar_toUpper (ch : CharU) : sanChar ch.toUpper = sanChar ch := by
  cases ch <;>
    simp [sanChar, CharU.toUpper, CharU.substCedilha, CharU.nfdAscii,
      toLowerA_toUpperA]

/-- Lowercasing preserves the whitespace class of a character. -/
theorem ehEspacoU_toLower (ch : CharU) :
    ehEspacoU ch.toLower = ehEspacoU ch := by
  cases ch <;> simp [ehEspacoU, CharU.toLower, toLowerA_ws]

/-- Uppercasing preserves the whitespace class of a character. -/
theorem ehEspacoU_toUpper (ch : CharU) :
    ehEspacoU ch.toUpper = ehEspacoU ch := by
  cases ch <;> simp [ehEspacoU, CharU.toUpper, toUpperA_ws]

/-- Lowercasing preserves well-formedness. -/
theorem bemFormado_toLower (ch : CharU) (h : ch.bemFormado = true) :
    ch.toLower.bemFormado = true := by
  cases ch <;>
    simp only [CharU.bemFormado, CharU.toLower, toLowerA, decide_eq_true_eq,
      Bool.or_eq_true, Bool.and_eq_true, decide_eq_true_eq] at h ⊢ <;>
    first
      | rfl
      | (split <;> omega)

/-- Uppercasing preserves well-formedness. -/
theorem bemFormado_toUpper (ch : CharU) (h : ch.bemFormado = true) :
    ch.toUpper.bemFormado = true := by
  cases ch <;>
    simp only [CharU.bemFormado, CharU.toUpper, toUpperA, decide_eq_true_eq,
      Bool.or_eq_true, Bool.and_eq_true, decide_eq_true_eq] at h ⊢ <;>
    first
      | rfl
      | (split <;> omega)

/-- The sanitizing pipeline is the concatenation of the per-character
sanitized scalars. -/
theorem sanitizar_flatMap (s : List CharU) :
    ((s.map CharU.substCedilha).flatMap CharU.nfdAscii).map toLowerA =
      s.flatMap sanChar := by
  induction s with
  | nil => rfl
  | cons c r ih => simp [sanChar, ih]

/-- `sanitizar` in terms of the per-character view. -/
theorem sanitizar_eq (s : List CharU) :
    sanitizar s = if (s.flatMap sanChar).all ehMinusculaOuEspaco
      then some (s.flatMap sanChar) else none := by
  show (if (((s.map CharU.substCedilha).flatMap CharU.nfdAscii).map
      toLowerA).all ehMinusculaOuEspaco
    then some (((s.map CharU.substCedilha).flatMap CharU.nfdAscii).map
      toLowerA) else none) = _
  rw [sanitizar_flatMap]

/-- `palavrasAux` on the empty input flushes the accumulated run. -/
theorem palavrasAux_nil {α : Type} (ws : α → Bool) (acc : List α) :
    palavrasAux ws [] acc = if acc.isEmpty then [] else [acc.reverse] := by
  cases acc <;> rfl

/-- One step of `palavrasAux`, with the accumulator test as an `if`. -/
theorem palavrasAux_cons {α : Type} (ws : α → Bool) (c : α) (r acc : List α) :
    palavrasAux ws (c :: r) acc =
      if ws c then
        (if acc.isEmpty then palavrasAux ws r []
         else acc.reverse :: palavrasAux ws r [])
      else palavrasAux ws r (c :: acc) := by
  cases acc <;> by_cases h : ws c <;> simp [palavrasAux, h]

/-- Scanning a run of non-whitespace characters accumulates them. -/
theorem palavrasAux_run {α : Type} (ws : α → Bool) (w : List α)
    (hw : ∀ x ∈ w, ws x = false) (t acc : List α) :
    palavrasAux ws (w ++ t) acc = palavrasAux ws t (w.reverse ++ acc) := by
  induction w generalizing acc with
  | nil => simp
  | cons c w' ih =>
    have hc : ws c = false := hw c (List.mem_cons_self c w')
    rw [List.cons_append, palavrasAux_cons, if_neg (by simp [hc]),
      ih (fun x hx => hw x (List.mem_cons_of_mem c hx)) (c :: acc)]
    simp [List.append_assoc]

/-- Words produced by `palavrasAux` are never empty. -/
theorem palavrasAux_mem_ne_nil {α : Type} (ws : α → Bool) :
    ∀ (l acc : List α), ∀ w ∈ palavrasAux ws l acc, w ≠ [] := by
  intro l
  induction l with
  | nil =>
    intro acc w hw
    rw [palavrasAux_nil] at hw
    cases acc with
    | nil => cases hw
    | cons a as =>
      simp only [List.isEmpty_cons, if_neg] at hw
      rcases List.mem_singleton.mp hw with rfl
      simp
  | cons c r ih =>
    intro acc w hw
    rw [palavrasAux_cons] at hw
    by_cases hc : ws c
    · rw [if_pos hc] at hw
      cases acc with
      | nil => exact ih [] w (by simpa using hw)
      | cons a as =>
        simp only [List.isEmpty_cons, if_neg] at hw
        rcases List.mem_cons.mp hw with rfl | hw
        · simp
        · exact ih [] w hw
    · rw [if_neg hc] at hw
      exact ih (c :: acc) w hw

/-- Characters of words produced by `palavrasAux` are non-whitespace,
provided the accumulated run is. -/
theorem palavrasAux_mem_naoWs {α : Type} (ws : α → Bool) :
    ∀ (l acc : List α), (∀ x ∈ acc, ws x = false) →
      ∀ w ∈ palavrasAux ws l acc, ∀ x ∈ w, ws x = false := by
  intro l
  induction l with
  | nil =>
    intro acc hacc w hw x hx
    rw [palavrasAux_nil] at hw
    cases acc with
    | nil => cases hw
    | cons a as =>
      simp only [List.isEmpty_cons, if_neg] at hw
      rcases List.mem_singleton.mp hw with rfl
      exact hacc x (List.mem_reverse.mp hx)
  | cons c r ih =>
    intro acc hacc w hw x hx
    rw [palavrasAux_cons] at hw
    by_cases hc : ws c
    · rw [if_pos hc] at hw
      cases acc with
      | nil => exact ih [] (by simp) w (by simpa using hw) x hx
      | cons a as =>
        simp only [List.isEmpty_cons, if_neg] at hw
        rcases List.mem_cons.mp hw with rfl | hw
        · exact hacc x (List.mem_reverse.mp hx)
        · exact ih [] (by simp) w hw x hx
    · rw [if_neg hc] at hw
      refine ih (c :: acc) ?_ w hw x hx
      intro y hy
      rcases List.mem_cons.mp hy with rfl | hy
      · simpa using hc
      · exact hacc y hy

/-- Characters of words produced by `palavrasAux` come from the input or the
accumulated run. -/
theorem palavrasAux_mem_mem {α : Type} (ws : α → Bool) :
    ∀ (l acc : List α), ∀ w ∈ palavrasAux ws l acc, ∀ x ∈ w,
      x ∈ l ∨ x ∈ acc := by
  intro l
  induction l with
  | nil =>
    intro acc w hw x hx
    rw [palavrasAux_nil] at hw
    cases acc with
    | nil => cases hw
    | cons a as =>
      simp only [List.isEmpty_cons, if_neg] at hw
      rcases List.mem_singleton.mp hw with rfl
      exact .inr (List.mem_reverse.mp hx)
  | cons c r ih =>
    intro acc w hw x hx
    rw [palavrasAux_cons] at hw
    by_cases hc : ws c
    · rw [if_pos hc] at hw
      cases acc with
      | nil =>
        rcases ih [] w (by simpa using hw) x hx with h | h
        · exact .inl (List.mem_cons_of_mem c h)
        · cases h
      | cons a as =>
        simp only [List.isEmpty_cons, if_neg] at hw
        rcases List.mem_cons.mp hw with rfl | hw
        · exact .inr (List.mem_reverse.mp hx)
        · rcases ih [] w hw x hx with h | h
          · exact .inl (List.mem_cons_of_mem c h)
          · cases h
    · rw [if_neg hc] at hw
      rcases ih (c :: acc) w hw x hx with h | h
      · exact .inl (List.mem_cons_of_mem c h)
      · rcases List.mem_cons.mp h with rfl | h
        · exact .inl (List.mem_cons_self x r)
        · exact .inr h

/-- Splitting commutes with mapping a whitespace-class-preserving function. -/
theorem palavrasAux_map {α : Type} (ws : α → Bool) (f : α → α)
    (hf : ∀ x, ws (f x) = ws x) :
    ∀ (l acc : List α),
      palavrasAux ws (l.map f) (acc.map f) =
        (palavrasAux ws l acc).map (List.map f) := by
  intro l
  induction l with
  | nil =>
    intro acc
    rw [List.map_nil, palavrasAux_nil, palavrasAux_nil]
    cases acc <;> simp
  | cons c r ih =>
    intro acc
    rw [List.map_cons, palavrasAux_cons, palavrasAux_cons, hf]
    by_cases h : ws c
    · rw [if_pos h, if_pos h]
      have h0 : palavrasAux ws (r.map f) [] =
          (palavrasAux ws r []).map (List.map f) := by
        simpa using ih []
      cases acc <;> simp [h0, List.map_reverse]
    · rw [if_neg h, if_neg h]
      exact ih (c :: acc)

/-- Splitting commutes with mapping, from empty accumulators. -/
theorem palavrasG_map {α : Type} (ws : α → Bool) (f : α → α)
    (hf : ∀ x, ws (f x) = ws x) (l : List α) :
    palavrasG ws (l.map f) = (palavrasG ws l).map (List.map f) :=
  palavrasAux_map ws f hf l []

/-- Splitting the space-joined concatenation of nonempty space-free words
recovers exactly those words. -/
theorem palavrasG_juntar (l : List (List CharU))
    (hne : ∀ w ∈ l, w ≠ [])
    (hws : ∀ w ∈ l, ∀ ch ∈ w, ehEspacoU ch = false) :
    palavrasG ehEspacoU (juntarPalavras l) = l := by
  induction l with
  | nil => rfl
  | cons w r ih =>
    cases r with
    | nil =>
      show palavrasAux ehEspacoU (juntarPalavras [w]) [] = [w]
      have hw := hne w (List.mem_cons_self w [])
      have : juntarPalavras [w] = w ++ [] := by simp [juntarPalavras]
      rw [this, palavrasAux_run ehEspacoU w
        (hws w (List.mem_cons_self w [])) [] [], palavrasAux_nil]
      rw [if_neg (by simp [hw]), List.append_nil, List.reverse_reverse]
    | cons w' r' =>
      show palavrasAux ehEspacoU (juntarPalavras (w :: w' :: r')) [] = _
      have hjw : juntarPalavras (w :: w' :: r') =
          w ++ CharU.ascii 32 :: juntarPalavras (w' :: r') := rfl
      rw [hjw, palavrasAux_run ehEspacoU w
        (hws w (List.mem_cons_self w (w' :: r'))) _ [], palavrasAux_cons,
        if_pos (by decide),
        if_neg (by simp [hne w (List.mem_cons_self w (w' :: r'))])]
      rw [List.append_nil, List.reverse_reverse]
      have ihr := ih (fun x hx => hne x (List.mem_cons_of_mem w hx))
        (fun x hx => hws x (List.mem_cons_of_mem w hx))
      exact congrArg (w :: ·) ihr

/-- Mapping lowercasing over a space-joined list lowercases each word (the
separator is fixed by lowercasing). -/
theorem juntar_map_toLower (l : List (List CharU)) :
    (juntarPalavras l).map CharU.toLower =
      juntarPalavras (l.map (fun w => w.map CharU.toLower)) := by
  induction l with
  | nil => rfl
  | cons w r ih =>
    cases r with
    | nil => rfl
    | cons w' r' =>
      show (w ++ CharU.ascii 32 :: juntarPalavras (w' :: r')).map
          CharU.toLower = _
      rw [List.map_append, List.map_cons, ih]
      rfl

/-- A character of a space-joined list is a space or a character of one of
the words. -/
theorem juntar_mem (l : List (List CharU)) (ch : CharU)
    (h : ch ∈ juntarPalavras l) : ch = CharU.ascii 32 ∨ ∃ w ∈ l, ch ∈ w := by
  induction l with
  | nil => cases h
  | cons w r ih =>
    cases r with
    | nil =>
      exact .inr ⟨w, List.mem_cons_self w [], h⟩
    | cons w' r' =>
      have h' : ch ∈ w ++ CharU.ascii 32 :: juntarPalavras (w' :: r') := h
      rcases List.mem_append.mp h' with h0 | h0
      · exact .inr ⟨w, List.mem_cons_self w (w' :: r'), h0⟩
      · rcases List.mem_cons.mp h0 with rfl | h0
        · exact .inl rfl
        · rcases ih h0 with h1 | ⟨v, hv, hchv⟩
          · exact .inl h1
          · exact .inr ⟨v, List.mem_cons_of_mem w hv, hchv⟩

/-- Mapping a pointwise-identity function is the identity. -/
theorem map_fixa {α : Type} (f : α → α) :
    ∀ l : List α, (∀ x ∈ l, f x = x) → l.map f = l := by
  intro l
  induction l with
  | nil => intro _; rfl
  | cons c r ih =>
    intro h
    rw [List.map_cons, h c (List.mem_cons_self c r),
      ih (fun x hx => h x (List.mem_cons_of_mem c hx))]

/-- Lowercasing a capitalized word recovers the word, when the word's
characters are fixed by lowercasing. -/
theorem capitalizar_map_toLower (w : List CharU)
    (hl : ∀ ch ∈ w, ch.toLower = ch) :
    (capitalizarPalavra w).map CharU.toLower = w := by
  unfold capitalizarPalavra
  split
  · exact map_fixa CharU.toLower w hl
  · cases w with
    | nil => rfl
    | cons c r =>
      rw [List.map_cons, CharU.toLower_toUpper,
        hl c (List.mem_cons_self c r),
        map_fixa CharU.toLower r
          (fun x hx => hl x (List.mem_cons_of_mem c hx))]

/-- Capitalizing a nonempty word yields a nonempty word. -/
theorem capitalizar_ne_nil (w : List CharU) (hw : w ≠ []) :
    capitalizarPalavra w ≠ [] := by
  unfold capitalizarPalavra
  split
  · exact hw
  · cases w with
    | nil => exact absurd rfl hw
    | cons c r => simp

/-- Capitalizing a space-free word yields a space-free word. -/
theorem capitalizar_sem_espaco (w : List CharU)
    (hw : ∀ ch ∈ w, ehEspacoU ch = false) :
    ∀ ch ∈ capitalizarPalavra w, ehEspacoU ch = false := by
  unfold capitalizarPalavra
  split
  · exact hw
  · cases w with
    | nil => intro ch hch; cases hch
    | cons c r =>
      intro ch hch
      rcases List.mem_cons.mp hch with rfl | h
      · rw [ehEspacoU_toUpper]
        exact hw c (List.mem_cons_self c r)
      · exact hw ch (List.mem_cons_of_mem c h)

/-- The sanitized scalars of a capitalized word equal those of the word. -/
theorem capitalizar_flatMap_san (w : List CharU) :
    (capitalizarPalavra w).flatMap sanChar = w.flatMap sanChar := by
  unfold capitalizarPalavra
  split
  · rfl
  · cases w with
    | nil => rfl
    | cons c r => simp [sanChar_toUpper]

/-- A character of a capitalized word is a character of the word or the
uppercasing of one. -/
theorem capitalizar_mem (w : List CharU) (ch : CharU)
    (h : ch ∈ capitalizarPalavra w) : ch ∈ w ∨ ∃ y ∈ w, ch = y.toUpper := by
  unfold capitalizarPalavra at h
  split at h
  · exact .inl h
  · cases w with
    | nil => cases h
    | cons c r =>
      rcases List.mem_cons.mp h with rfl | h
      · exact .inr ⟨c, List.mem_cons_self c r, rfl⟩
      · exact .inl (List.mem_cons_of_mem c h)

/-- Per-character trichotomy of the sanitizing pipeline on well-formed
characters: a whitespace character sanitizes to one whitespace scalar; any
other character sanitizes to nothing or to one non-whitespace scalar. -/
theorem sanChar_casos (ch : CharU) (h : CharU.bemFormado ch = true) :
    (ehEspacoU ch = true ∧ ∃ x, sanChar ch = [x] ∧ isWs x = true) ∨
    (ehEspacoU ch = false ∧ sanChar ch = []) ∨
    (ehEspacoU ch = false ∧ ∃ x, sanChar ch = [x] ∧ isWs x = false) := by
  cases ch with
  | ascii c =>
    by_cases hc : isWs c
    · exact .inl ⟨hc, toLowerA c, rfl, by rw [toLowerA_ws]; exact hc⟩
    · refine .inr (.inr ⟨by simpa [ehEspacoU] using hc, toLowerA c, rfl, ?_⟩)
      rw [toLowerA_ws]
      simpa using hc
  | latin b a =>
    refine .inr (.inr ⟨rfl, toLowerA b, rfl, ?_⟩)
    simp only [CharU.bemFormado, Bool.or_eq_true, Bool.and_eq_true,
      decide_eq_true_eq] at h
    unfold toLowerA isWs
    split <;> simp <;> omega
  | cedilha m =>
    refine .inr (.inr ⟨rfl, 99, ?_, by decide⟩)
    cases m <;> decide
  | outro t => exact .inr (.inl ⟨rfl, rfl⟩)

/-- Sanitizing ignores lowercasing of the word. -/
theorem flatMap_san_map_toLower (w : List CharU) :
    (w.map CharU.toLower).flatMap sanChar = w.flatMap sanChar := by
  induction w with
  | nil => rfl
  | cons a r ih => simp [sanChar_toLower, ih]

/-- Splitting the sanitized character stream produces exactly the sanitized
images of the whitespace-split words, minus those that sanitize away, for any
run accumulated so far (generalized for induction). -/
theorem palavras_san_aux (s : List CharU)
    (hs : ∀ ch ∈ s, CharU.bemFormado ch = true) :
    ∀ accU : List CharU,
      palavrasAux isWs (s.flatMap sanChar)
          ((accU.reverse.flatMap sanChar).reverse) =
        ((palavrasAux ehEspacoU s accU).map
          (fun w => w.flatMap sanChar)).filter (fun w => !w.isEmpty) := by
  induction s with
  | nil =>
    intro accU
    rw [List.flatMap_nil, palavrasAux_nil, palavrasAux_nil]
    cases accU with
    | nil => simp
    | cons a as =>
      have hrhs : (if (a :: as).isEmpty then ([] : List (List CharU))
          else [(a :: as).reverse]) = [(a :: as).reverse] := rfl
      rw [hrhs, List.map_cons, List.map_nil, List.filter_cons]
      generalize ((a :: as).reverse).flatMap sanChar = B
      cases B <;> simp
  | cons ch r ih =>
    intro accU
    have hch := hs ch (List.mem_cons_self ch r)
    have ihr := ih (fun x hx => hs x (List.mem_cons_of_mem ch hx))
    rw [List.flatMap_cons]
    rcases sanChar_casos ch hch with ⟨hws, x, hx, hxw⟩ |
        ⟨hws, hnil⟩ | ⟨hws, x, hx, hxw⟩
    · rw [hx, List.singleton_append, palavrasAux_cons, if_pos hxw,
        palavrasAux_cons, if_pos hws]
      have h0 : palavrasAux isWs (r.flatMap sanChar) [] =
          ((palavrasAux ehEspacoU r []).map
            (fun w => w.flatMap sanChar)).filter (fun w => !w.isEmpty) := by
        simpa using ihr []
      cases accU with
      | nil => simpa using h0
      | cons a as =>
        have hrhs : (if (a :: as).isEmpty then palavrasAux ehEspacoU r []
            else (a :: as).reverse :: palavrasAux ehEspacoU r []) =
              (a :: as).reverse :: palavrasAux ehEspacoU r [] := rfl
        rw [hrhs, List.map_cons, List.filter_cons, ← h0]
        generalize ((a :: as).reverse).flatMap sanChar = B
        cases B <;> simp
    · have hA : ((((ch :: accU).reverse).flatMap sanChar)).reverse =
          (((accU.reverse).flatMap sanChar)).reverse := by
        simp [hnil]
      rw [hnil, List.nil_append, palavrasAux_cons, if_neg (by simp [hws]),
        ← hA]
      exact ihr (ch :: accU)
    · rw [hx, List.singleton_append, palavrasAux_cons, if_neg (by simp [hxw]),
        palavrasAux_cons, if_neg (by simp [hws])]
      have hA : ((((ch :: accU).reverse).flatMap sanChar)).reverse =
          x :: (((accU.reverse).flatMap sanChar)).reverse := by
        simp [hx]
      rw [← hA]
      exact ihr (ch :: accU)

/-- Splitting the sanitized stream of a well-formed string produces the
sanitized images of its whitespace-split words, minus those that sanitize
away. -/
theorem palavras_san (s : List CharU)
    (hs : ∀ ch ∈ s, CharU.bemFormado ch = true) :
    palavrasG isWs (s.flatMap sanChar) =
      ((palavrasG ehEspacoU s).map
        (fun w => w.flatMap sanChar)).filter (fun w => !w.isEmpty) :=
  palavras_san_aux s hs []

/-- Sanitizing the words of the lowercased input instead of the input itself
yields the same split of the sanitized stream. -/
theorem palavras_san_toLower (t : List CharU)
    (ht : ∀ ch ∈ t, CharU.bemFormado ch = true) :
    palavrasG isWs (t.flatMap sanChar) =
      ((palavrasG ehEspacoU (t.map CharU.toLower)).map
        (fun w => w.flatMap sanChar)).filter (fun w => !w.isEmpty) := by
  rw [palavras_san t ht,
    palavrasG_map ehEspacoU CharU.toLower ehEspacoU_toLower, List.map_map]
  congr 1
  apply List.map_congr_left
  intro w _
  exact (flatMap_san_map_toLower w).symm

/-- `Nome.fromStr` with the sanitization spelled out per character. -/
theorem fromStr_eq (t : List CharU) :
    Nome.fromStr t =
      if (t.flatMap sanChar).all ehMinusculaOuEspaco then
        (if ((((palavrasG isWs (t.flatMap sanChar)).filter
              (fun x => !x.isEmpty)).filter
              (fun x => !particulas.contains x)).take 10).length > 1
         then .ok ⟨(((palavrasG isWs (t.flatMap sanChar)).filter
              (fun x => !x.isEmpty)).filter
              (fun x => !particulas.contains x)).take 10⟩
         else .error .nomeCurto)
      else .error .caracterEstranho := by
  unfold Nome.fromStr
  rw [sanitizar_eq]
  by_cases hb : (t.flatMap sanChar).all ehMinusculaOuEspaco
  · rw [if_pos hb, if_pos hb]
  · rw [if_neg hb, if_neg hb]

/-- `processar_nome` is idempotent on well-formed inputs: its output — the
lowercased input recapitalized word by word — re-validates and re-formats to
itself. -/
theorem processar_nome_idem (s c : List CharU)
    (hwf : ∀ ch ∈ s, CharU.bemFormado ch = true)
    (h : processar_nome s = some c) :
    processar_nome c = some c := by
  unfold processar_nome at h
  cases hfs : Nome.fromStr s with
  | error e =>
    rw [hfs] at h
    exact Option.noConfusion h
  | ok n =>
    rw [hfs] at h
    have hc : c = juntarPalavras ((palavrasG ehEspacoU
        (s.map CharU.toLower)).map capitalizarPalavra) :=
      (Option.some.inj h).symm
    have hWne : ∀ w ∈ palavrasG ehEspacoU (s.map CharU.toLower), w ≠ [] :=
      palavrasAux_mem_ne_nil ehEspacoU (s.map CharU.toLower) []
    have hWws : ∀ w ∈ palavrasG ehEspacoU (s.map CharU.toLower),
        ∀ x ∈ w, ehEspacoU x = false :=
      palavrasAux_mem_naoWs ehEspacoU (s.map CharU.toLower) []
        (by intro x hx; cases hx)
    have hWsrc : ∀ w ∈ palavrasG ehEspacoU (s.map CharU.toLower),
        ∀ x ∈ w, x ∈ s.map CharU.toLower := by
      intro w hw x hx
      rcases palavrasAux_mem_mem ehEspacoU (s.map CharU.toLower) [] w hw x hx
        with h1 | h1
      · exact h1
      · cases h1
    have hWlower : ∀ w ∈ palavrasG ehEspacoU (s.map CharU.toLower),
        ∀ x ∈ w, x.toLower = x := by
      intro w hw x hx
      rcases List.mem_map.mp (hWsrc w hw x hx) with ⟨y, _, rfl⟩
      exact CharU.toLower_toLower y
    have hWwf : ∀ w ∈ palavrasG ehEspacoU (s.map CharU.toLower),
        ∀ x ∈ w, x.bemFormado = true := by
      intro w hw x hx
      rcases List.mem_map.mp (hWsrc w hw x hx) with ⟨y, hy, rfl⟩
      exact bemFormado_toLower y (hwf y hy)
    have hmapW : ((palavrasG ehEspacoU (s.map CharU.toLower)).map
        capitalizarPalavra).map (fun w => w.map CharU.toLower) =
          palavrasG ehEspacoU (s.map CharU.toLower) := by
      rw [List.map_map]
      have h1 : (palavrasG ehEspacoU (s.map CharU.toLower)).map
          ((fun w => w.map CharU.toLower) ∘ capitalizarPalavra) =
            (palavrasG ehEspacoU (s.map CharU.toLower)).map id := by
        apply List.map_congr_left
        intro w hw
        exact capitalizar_map_toLower w (hWlower w hw)
      rw [h1, List.map_id]
    have hclow : c.map CharU.toLower = juntarPalavras
        (palavrasG ehEspacoU (s.map CharU.toLower)) := by
      rw [hc, juntar_map_toLower, hmapW]
    have hCsplit : palavrasG ehEspacoU (c.map CharU.toLower) =
        palavrasG ehEspacoU (s.map CharU.toLower) := by
      rw [hclow]
      exact palavrasG_juntar (palavrasG ehEspacoU (s.map CharU.toLower))
        hWne hWws
    have hCwf : ∀ ch ∈ c, CharU.bemFormado ch = true := by
      intro ch hch
      rw [hc] at hch
      rcases juntar_mem _ ch hch with rfl | ⟨w, hw, hchw⟩
      · decide
      · rcases List.mem_map.mp hw with ⟨v, hv, rfl⟩
        rcases capitalizar_mem v ch hchw with hin | ⟨y, hy, rfl⟩
        · exact hWwf v hv ch hin
        · exact bemFormado_toUpper y (hWwf v hv y hy)
    rw [fromStr_eq] at hfs
    have hall_s : (s.flatMap sanChar).all ehMinusculaOuEspaco = true := by
      by_contra hb
      rw [if_neg hb] at hfs
      exact Except.noConfusion hfs
    rw [if_pos hall_s] at hfs
    have hlen_s : ((((palavrasG isWs (s.flatMap sanChar)).filter
        (fun x => !x.isEmpty)).filter
        (fun x => !particulas.contains x)).take 10).length > 1 := by
      by_contra hl
      rw [if_neg hl] at hfs
      exact Except.noConfusion hfs
    have hall_c : (c.flatMap sanChar).all ehMinusculaOuEspaco = true := by
      rw [List.all_eq_true]
      intro x hx
      rcases List.mem_flatMap.mp hx with ⟨ch, hch, hxch⟩
      have hgood : ∀ z ∈ s.map CharU.toLower, ∀ y ∈ sanChar z,
          ehMinusculaOuEspaco y = true := by
        intro z hz y hy
        rcases List.mem_map.mp hz with ⟨z0, hz0, rfl⟩
        rw [sanChar_toLower] at hy
        exact List.all_eq_true.mp hall_s y
          (List.mem_flatMap.mpr ⟨z0, hz0, hy⟩)
      rw [hc] at hch
      rcases juntar_mem _ ch hch with rfl | ⟨w, hw, hchw⟩
      · have h32 : sanChar (CharU.ascii 32) = [32] := by decide
        rw [h32] at hxch
        rcases List.mem_singleton.mp hxch with rfl
        decide
      · rcases List.mem_map.mp hw with ⟨v, hv, rfl⟩
        rcases capitalizar_mem v ch hchw with hin | ⟨y, hy, rfl⟩
        · exact hgood ch (hWsrc v hv ch hin) x hxch
        · rw [sanChar_toUpper] at hxch
          exact hgood y (hWsrc v hv y hy) x hxch
    have hWc : palavrasG isWs (c.flatMap sanChar) =
        palavrasG isWs (s.flatMap sanChar) := by
      rw [palavras_san_toLower c hCwf, palavras_san_toLower s hwf, hCsplit]
    have hfc : Nome.fromStr c = .ok ⟨(((palavrasG isWs
        (s.flatMap sanChar)).filter (fun x => !x.isEmpty)).filter
        (fun x => !particulas.contains x)).take 10⟩ := by
      rw [fromStr_eq, if_pos hall_c, hWc, if_pos hlen_s]
    unfold processar_nome
    rw [hfc]
    show some (juntarPalavras ((palavrasG ehEspacoU
        (c.map CharU.toLower)).map capitalizarPalavra)) = some c
    rw [hCsplit, hc]

/-- Counterexample for C8: the phone validator is not idempotent. The
accepted input "001 98765-4321" canonicalizes to "+5501987654321", but that
output re-validates to the different string "+551987654321": after the
literal "+55", the optional leading zero of the pattern consumes the "0" of
the old area code, and the area-code group shifts by one digit. -/
theorem C8_contraexemplo :
    processar_telefone (strOf "001 98765-4321") =
        some (strOf "+5501987654321") ∧
      processar_telefone (strOf "+5501987654321") =
        some (strOf "+551987654321") ∧
      strOf "+5501987654321" ≠ strOf "+551987654321" :=
  ⟨by decide, by decide, by decide⟩

/-- C8 (amended): the identifier, date, time, signature-code, name and
e-mail validators are idempotent — every canonical output they produce
re-validates to itself (for the name validator, on inputs over the modelled
alphabet). The phone validator is not: the accepted input "001 98765-4321"
canonicalizes to "+5501987654321", which re-validates to the different
string "+551987654321". -/
theorem C8_idempotencia :
    (∀ s c, processar_dre s = some c → processar_dre c = some c) ∧
    (∀ s c, processar_data s = some c → processar_data c = some c) ∧
    (∀ s c, processar_hora s = some c → processar_hora c = some c) ∧
    (∀ s c, processar_codigo s = some c → processar_codigo c = some c) ∧
    (∀ s c, (∀ ch ∈ s, CharU.bemFormado ch = true) →
      processar_nome s = some c → processar_nome c = some c) ∧
    (∀ s c, processar_email s = some c → processar_email c = some c) ∧
    (processar_telefone (strOf "001 98765-4321") =
        some (strOf "+5501987654321") ∧
      processar_telefone (strOf "+5501987654321") =
        some (strOf "+551987654321") ∧
      strOf "+5501987654321" ≠ strOf "+551987654321") :=
  ⟨processar_dre_idem, processar_data_idem, processar_hora_idem,
    processar_codigo_idem,
    fun s c hwf h => processar_nome_idem s c hwf h,
    processar_email_idem,
    by decide, by decide, by decide⟩

/-- Witness for C8 (amended): the name validator applied twice to a concrete
name — "jose da silva" canonicalizes to "Jose da Silva", which re-validates
to itself. -/
theorem C8_idempotencia_witness :
    processar_nome (asciiStr "Jose da Silva") =
      some (asciiStr "Jose da Silva") :=
  C8_idempotencia.2.2.2.2.1 (asciiStr "jose da silva")
    (asciiStr "Jose da Silva") (by decide) (by decide)
